import Mathlib

/-!
Shallow embedding of the PokeShop shop-generation and mutation engine
(src/lib/storeLogic.ts, src/lib/random.ts, src/store/useShopStore.ts).

JS records (objects) are modelled as association lists in insertion order;
JS `Set` membership is modelled by lists with a `contains` check; the
randomness sources (`Math.random`, `crypto.randomUUID`, `new Date`) are
modelled by an oracle indexed by a draw counter that is threaded through
every function in evaluation order.  `Array.prototype.sort` (stable in
ECMAScript) is modelled by `List.mergeSort`, which is also stable.
-/

namespace PokeShop

open scoped List

/-- JS object write `m[key] = v`: overwrite the value of an existing key in
place (keeping its position), otherwise append the new key at the end. -/
def setKey [BEq κ] (m : List (κ × α)) (key : κ) (v : α) : List (κ × α) :=
  if m.any (fun kv => kv.1 == key) then
    m.map (fun kv => if kv.1 == key then (key, v) else kv)
  else m ++ [(key, v)]

/-- JS object read `m[key]`, `none` when the key is absent. -/
def getKey [BEq κ] (m : List (κ × α)) (key : κ) : Option α :=
  (m.find? (fun kv => kv.1 == key)).map (fun kv => kv.2)

/-- Keys of a JS object in insertion order (`Object.keys`). -/
def keysOf (m : List (κ × α)) : List κ :=
  m.map (fun kv => kv.1)

/-- Sum of the values of a numeric-valued JS object. -/
def sumValues (m : List (κ × Nat)) : Nat :=
  (m.map (fun kv => kv.2)).sum

/-- JS `Array.from(new Set(l))`: first occurrences, in order. -/
def jsDedup [BEq κ] (l : List κ) : List κ :=
  l.foldl (fun acc x => if acc.contains x then acc else acc ++ [x]) []

/-- JS `toUpperCase`, modelled as a per-character map (structurally
recursive so that it evaluates by kernel reduction). -/
def jsToUpper (s : String) : String := ⟨s.data.map Char.toUpper⟩

/-- JS `toLowerCase`, modelled as a per-character map. -/
def jsToLower (s : String) : String := ⟨s.data.map Char.toLower⟩

/-- Oracle for all sources of nondeterminism, indexed by a draw counter. -/
structure Oracle where
  rand : Nat → Nat
  frac : Nat → ℚ
  uuid : Nat → Nat
  now : Nat → Nat

/-- Models `Math.floor(Math.random() * n)` at draw counter `k`. -/
def draw (o : Oracle) (k n : Nat) : Nat := o.rand k % n

/-- Swap of two positions of a list (the JS destructuring swap
`[arr[i], arr[j]] = [arr[j], arr[i]]`). -/
def swapL (l : List α) (i j : Nat) : List α :=
  match l[i]?, l[j]? with
  | some a, some b => (l.set i b).set j a
  | _, _ => l

/-- Fisher-Yates loop body of `shuffleInPlace` / `sampleWithoutReplacement`
(src/lib/random.ts): iterate `i` from `l.length - 1` down to `1`, swapping
position `i` with a random position `j ≤ i`. -/
def fisherYatesGo (o : Oracle) : Nat → List α → Nat → List α × Nat
  | 0, l, k => (l, k)
  | i + 1, l, k => fisherYatesGo o i (swapL l (i + 1) (draw o k (i + 2))) (k + 1)

/-- Fisher-Yates shuffle of a copy of the list, as in src/lib/random.ts. -/
def fisherYates (o : Oracle) (l : List α) (k : Nat) : List α × Nat :=
  fisherYatesGo o (l.length - 1) l k

/-- Scan phase of `sampleWithoutReplacement`: walk the shuffled copy, and
append each item not equal (under `eq`) to an excluded or already
appended item, until `count` items have been collected. -/
def swrScan (eq : α → α → Bool) (count : Nat) (exclude : List α) :
    List α → List α → List α
  | [], out => out
  | x :: rest, out =>
    if count ≤ out.length then out
    else if exclude.any (fun e => eq e x) || out.any (fun e => eq e x) then
      swrScan eq count exclude rest out
    else
      swrScan eq count exclude rest (out ++ [x])

/-- Model of `sampleWithoutReplacement` (src/lib/random.ts): Fisher-Yates
shuffle a copy of the pool, then scan it collecting up to `count` items
that are not `eq`-equal to anything excluded or already collected. -/
def sampleWithoutReplacement (o : Oracle) (pool : List α) (count : Nat)
    (eq : α → α → Bool) (exclude : List α) (k : Nat) : List α × Nat :=
  let sh := fisherYates o pool k
  (swrScan eq count exclude sh.1 [], sh.2)

/-! Data model: catalog entries and configuration (src/types.ts, src/lib/config.ts).
A shop slot is a `Pokemon` value; a placeholder is a slot with `id = -1`.
The optional `__uid` tag and the `__purchased` / `__exhausted` flags of
`ShopPokemon` are modelled as fields with JS-falsy defaults. -/

structure Pokemon where
  id : Int
  nombre : String
  tier : String
  precio : ℚ
  regiones : List String
  uid : Option Nat := none
  purchased : Bool := false
  exhausted : Bool := false
deriving DecidableEq

instance : Inhabited Pokemon :=
  ⟨{ id := 0, nombre := "", tier := "", precio := 0, regiones := [] }⟩

structure AppConfig where
  shopSize : Nat
  quota : List (String × ℚ)
  tierWeights : List (String × ℚ)
  regionsOrder : List String
  rerollsPerRegion : Nat
  rerollRechargeEveryRegions : Nat
  shopRefreshEveryRegions : Nat
  rerollResetOnRefresh : Bool
  allowDuplicates : Bool
  includePurchasedInRerollPool : Bool
  shopBuySlotAutofill : Bool
  tierFallback : Bool
deriving DecidableEq

/-- Region membership test `byRegion` (storeLogic.ts). -/
def byRegion (p : Pokemon) (region : String) : Bool :=
  (p.regiones.map jsToLower).contains (jsToLower region)

/-- Numeric tier priority `tierPriority` (storeLogic.ts): S is 100, single
letters A..Z map to 90..65 via the first character code, anything else 0. -/
def tierPriority (tier : String) : Nat :=
  let upperTier := jsToUpper tier
  if upperTier = "S" then 100
  else
    match upperTier.data with
    | [] => 0
    | c :: _ => if 65 ≤ c.toNat ∧ c.toNat ≤ 90 then 90 - (c.toNat - 65) else 0

/-- Sort tiers by descending priority (`sortTiersDesc`); JS stable sort is
modelled by `mergeSort`. -/
def sortTiersDesc (tiers : List String) : List String :=
  tiers.mergeSort (fun a b => decide (tierPriority b ≤ tierPriority a))

/-- Sort tiers by ascending priority (`sortTiersAsc`). -/
def sortTiersAsc (tiers : List String) : List String :=
  tiers.mergeSort (fun a b => decide (tierPriority a ≤ tierPriority b))

/-- Normalization of minimum quotas (`normalizeMinQuota`): uppercase keys,
floor and clamp values to at least 0, drop non-positive entries. -/
def normalizeMinQuota (rawMinQuota : List (String × ℚ)) : List (String × Nat) :=
  rawMinQuota.foldl
    (fun minQuota kv =>
      let normalizedCount := (max 0 ⌊kv.2⌋).toNat
      if 0 < normalizedCount then setKey minQuota (jsToUpper kv.1) normalizedCount
      else minQuota)
    []

def defaultWeights : List (String × ℚ) := [("C", 40), ("B", 30), ("A", 20), ("S", 10)]

/-- Normalization of tier weights (`normalizeWeights`): spread the caller's
entries over the built-in defaults, then rewrite each entry with an
uppercased key and a clamped value while accumulating the clamped total;
when that total is 0, return the defaults. -/
def normalizeWeights (rawWeights : List (String × ℚ)) : List (String × ℚ) :=
  let merged := rawWeights.foldl (fun m kv => setKey m kv.1 kv.2) defaultWeights
  let weights := merged.foldl (fun w kv => setKey w (jsToUpper kv.1) (max 0 kv.2)) []
  let totalWeight : ℚ := (merged.map (fun kv => max 0 kv.2)).sum
  if totalWeight = 0 then defaultWeights else weights

/-- Scan phase of `pickWeightedTier`: subtract weights until the random
value drops to 0 or below. -/
def pwScan : List String → List ℚ → ℚ → Option String
  | t :: ts, w :: ws, randomValue =>
    let rv := randomValue - w
    if rv ≤ 0 then some t else pwScan ts ws rv
  | _, _, _ => none

/-- Weighted tier selection `pickWeightedTier` (storeLogic.ts).  JS
indexing past the end of an empty array yields `undefined`, which the
enclosing code would coerce to the string key "undefined"; that coercion
is the `getD "undefined"` / `getLastD "undefined"` below. -/
def pickWeightedTier (o : Oracle) (candidateTiers : List String)
    (weights : List (String × ℚ)) (k : Nat) : String × Nat :=
  let tierWeights := candidateTiers.map (fun t => max 0 ((getKey weights t).getD 0))
  let totalWeight : ℚ := tierWeights.sum
  if totalWeight ≤ 0 then ((sortTiersDesc candidateTiers).headD "undefined", k)
  else
    let randomValue := o.frac k * totalWeight
    ((pwScan candidateTiers tierWeights randomValue).getD (candidateTiers.getLastD "undefined"), k + 1)

/-- Loop of `computeTierCounts` distributing the remaining slots one by one
via `pickWeightedTier`. -/
def ctcGo (o : Oracle) (allTiers : List String) (weights : List (String × ℚ)) :
    Nat → List (String × Nat) → Nat → List (String × Nat) × Nat
  | 0, counts, k => (counts, k)
  | n + 1, counts, k =>
    let pick := pickWeightedTier o allTiers weights k
    ctcGo o allTiers weights n (setKey counts pick.1 ((getKey counts pick.1).getD 0 + 1)) pick.2

/-- Tier count planner `computeTierCounts` (storeLogic.ts): start from the
minimum quotas, then hand out `max 0 (shopSize - guaranteed)` extra slots
by weighted random draws. -/
def computeTierCounts (o : Oracle) (shopSize : Nat) (minQuota : List (String × Nat))
    (weights : List (String × ℚ)) (k : Nat) : List (String × Nat) × Nat :=
  let allTiers := jsDedup (keysOf minQuota ++ keysOf weights)
  let guaranteedTotal := sumValues minQuota
  let remainingSlots := shopSize - guaranteedTotal
  ctcGo o allTiers weights remainingSlots minQuota k

/-- Fallback tier order `findFallbackTiers` (storeLogic.ts): configured
tiers other than the original, lower-priority ones first (descending),
then higher-priority ones (ascending). -/
def findFallbackTiers (originalTier : String) (tierWeights : List (String × ℚ)) : List String :=
  let originalPriority := tierPriority originalTier
  let allConfigTiers := (keysOf tierWeights).filter
    (fun tier => jsToUpper tier != jsToUpper originalTier)
  let lowerTiers := (allConfigTiers.filter
      (fun tier => decide (tierPriority tier < originalPriority))).mergeSort
    (fun a b => decide (tierPriority b ≤ tierPriority a))
  let higherTiers := (allConfigTiers.filter
      (fun tier => decide (originalPriority < tierPriority tier))).mergeSort
    (fun a b => decide (tierPriority a ≤ tierPriority b))
  lowerTiers ++ higherTiers

/-- Helper `getCandidatePoolForTier` of `buildShopForRegion`: region pool
restricted to one tier, minus purchased items when configured. -/
def getCandidatePoolForTier (regionPool : List Pokemon) (config : AppConfig)
    (purchasedIds : List Int) (searchTier : String) : List Pokemon :=
  let pool := regionPool.filter (fun p => jsToUpper p.tier == searchTier)
  if config.includePurchasedInRerollPool then pool
  else pool.filter (fun p => !(purchasedIds.contains p.id))

/-- Duplicate marking pass of `buildShopForRegion`: any item whose id was
already seen in this pass or is already used in the shop gets its id set
to the placeholder sentinel -1. -/
def markDupes (usedIds : List Int) : List Pokemon → List Int → List Pokemon
  | [], _ => []
  | p :: rest, seenIds =>
    if seenIds.contains p.id || usedIds.contains p.id then
      { p with id := -1 } :: markDupes usedIds rest seenIds
    else
      p :: markDupes usedIds rest (p.id :: seenIds)

/-- Clone growth loop of `buildShopForRegion` when duplicates are allowed:
while the pool is non-empty and smaller than the required count, push a
copy of a random member. -/
def growPool (o : Oracle) (requiredCount : Nat) : Nat → List Pokemon → Nat → List Pokemon × Nat
  | 0, pool, k => (pool, k)
  | fuel + 1, pool, k =>
    if pool.length < requiredCount ∧ 0 < pool.length then
      growPool o requiredCount fuel (pool ++ [pool.getD (draw o k pool.length) default]) (k + 1)
    else (pool, k)

/-- UID assignment pass of `buildShopForRegion`: give every entry without a
`__uid` a fresh unique tag. -/
def assignUids (o : Oracle) : List Pokemon → Nat → List Pokemon × Nat
  | [], k => ([], k)
  | p :: rest, k =>
    match p.uid with
    | some _ =>
      let r := assignUids o rest k
      (p :: r.1, r.2)
    | none =>
      let r := assignUids o rest (k + 1)
      ({ p with uid := some (o.uuid k) } :: r.1, r.2)

/-- Slot equality `pokemonEquals` used by the sampler: placeholders compare
by their unique tag, everything else by id. -/
def pokemonEquals (a b : Pokemon) : Bool :=
  if a.id = -1 ∧ b.id = -1 then a.uid == b.uid else a.id == b.id

/-- First tier-fallback search of `buildShopForRegion` (pool empty before
duplicate handling): first fallback tier with a non-empty candidate pool. -/
def emptyFallbackSearch (regionPool : List Pokemon) (config : AppConfig)
    (purchasedIds : List Int) : List String → List Pokemon
  | [] => []
  | fallbackTier :: rest =>
    let pool := getCandidatePoolForTier regionPool config purchasedIds fallbackTier
    if 0 < pool.length then pool
    else emptyFallbackSearch regionPool config purchasedIds rest

/-- Second tier-fallback search of `buildShopForRegion` (no valid item left
after duplicate marking): first fallback tier whose duplicate-marked pool
still has a real entry. -/
def dupFallbackSearch (regionPool : List Pokemon) (config : AppConfig)
    (purchasedIds : List Int) (shopResult : List Pokemon) : List String → Option (List Pokemon)
  | [] => none
  | fallbackTier :: rest =>
    let fallbackPool := getCandidatePoolForTier regionPool config purchasedIds fallbackTier
    let marked := markDupes (shopResult.map (fun p => p.id)) fallbackPool []
    if 0 < (marked.filter (fun p => p.id != -1)).length then some marked
    else dupFallbackSearch regionPool config purchasedIds shopResult rest

/-- State of the per-tier selection loop of `buildShopForRegion`. -/
structure TierSel where
  selected : List Pokemon
  remainingNeeded : Nat
  usedTiers : List String
  k : Nat

/-- One iteration of the additional tier-fallback loop of
`buildShopForRegion` (still short after sampling the tier pool). -/
def additionalFallbackStep (o : Oracle) (regionPool : List Pokemon) (config : AppConfig)
    (purchasedIds : List Int) (shopResult : List Pokemon) (st : TierSel)
    (fallbackTier : String) : TierSel :=
  if st.remainingNeeded = 0 ∨ st.usedTiers.contains fallbackTier then st
  else
    let additionalPool := getCandidatePoolForTier regionPool config purchasedIds fallbackTier
    let currentUsedIds := ((shopResult.map (fun p => p.id)) ++
      (st.selected.map (fun p => p.id))).filter (fun i => i != -1)
    let marked := markDupes currentUsedIds additionalPool []
    let validAdditional := marked.filter (fun p => p.id != -1)
    let additionalCount := min st.remainingNeeded validAdditional.length
    if 0 < additionalCount then
      let picked := sampleWithoutReplacement o validAdditional additionalCount
        pokemonEquals (shopResult ++ st.selected) st.k
      { selected := st.selected ++ picked.1
        remainingNeeded := st.remainingNeeded - picked.1.length
        usedTiers := st.usedTiers ++ [fallbackTier]
        k := picked.2 }
    else st

/-- Synthesis of `n` fresh placeholder slots for a tier, each with a fresh
unique tag, zero price, and the sentinel id -1. -/
def makeHoles (o : Oracle) (tier region : String) : Nat → Nat → List Pokemon × Nat
  | 0, k => ([], k)
  | n + 1, k =>
    let rest := makeHoles o tier region n (k + 1)
    ({ id := -1, nombre := "—", tier := tier, precio := 0, regiones := [region],
       uid := some (o.uuid k) } :: rest.1, rest.2)

/-- Body of the per-tier loop of `buildShopForRegion`: compute the tier
pool (with the first fallback search), apply the duplicate policy (clone
growth or duplicate marking plus the second fallback search), assign uids,
sample real entries, run the additional fallback loop, and pad the
remainder with fresh placeholders. -/
def processTier (o : Oracle) (regionPool : List Pokemon) (region : String)
    (config : AppConfig) (purchasedIds : List Int) (weights : List (String × ℚ))
    (tierCounts : List (String × Nat)) (acc : List Pokemon × Nat)
    (currentTier : String) : List Pokemon × Nat :=
  let shopResult := acc.1
  let requiredCount := (getKey tierCounts currentTier).getD 0
  if requiredCount = 0 then acc
  else
    let tierPool0 := getCandidatePoolForTier regionPool config purchasedIds currentTier
    let tierPool1 :=
      if config.tierFallback ∧ tierPool0.length = 0 then
        emptyFallbackSearch regionPool config purchasedIds
          (findFallbackTiers currentTier weights)
      else tierPool0
    let dupRes : List Pokemon × Nat :=
      if config.allowDuplicates then
        growPool o requiredCount requiredCount tierPool1 acc.2
      else
        let marked := markDupes (shopResult.map (fun p => p.id)) tierPool1 []
        let validPokemon := marked.filter (fun p => p.id != -1)
        if config.tierFallback ∧ validPokemon.length = 0 then
          match dupFallbackSearch regionPool config purchasedIds shopResult
            (findFallbackTiers currentTier weights) with
          | some pool => (pool, acc.2)
          | none => (marked, acc.2)
        else (marked, acc.2)
    let withUids := assignUids o dupRes.1 dupRes.2
    let tierPool3 := withUids.1
    let realPokemon := tierPool3.filter (fun p => p.id != -1)
    let realCount := min requiredCount realPokemon.length
    let afterReal : List Pokemon × Nat × Nat :=
      if 0 < realCount then
        let picked := sampleWithoutReplacement o realPokemon realCount
          pokemonEquals shopResult withUids.2
        (picked.1, requiredCount - picked.1.length, picked.2)
      else ([], requiredCount, withUids.2)
    let stFinal : TierSel :=
      if config.tierFallback ∧ 0 < afterReal.2.1 then
        let initUsed :=
          if tierPool3.any (fun p => p.id != -1 && jsToUpper p.tier != jsToUpper currentTier) then
            match tierPool3.find? (fun p => p.id != -1) with
            | some p => if jsToUpper p.tier == "" then [] else [jsToUpper p.tier]
            | none => []
          else []
        (findFallbackTiers currentTier weights).foldl
          (additionalFallbackStep o regionPool config purchasedIds shopResult)
          { selected := afterReal.1, remainingNeeded := afterReal.2.1,
            usedTiers := initUsed, k := afterReal.2.2 }
      else
        { selected := afterReal.1, remainingNeeded := afterReal.2.1,
          usedTiers := [], k := afterReal.2.2 }
    let holes := makeHoles o currentTier region stFinal.remainingNeeded stFinal.k
    (shopResult ++ stFinal.selected ++ holes.1, holes.2)

/-- Final sort comparator of `buildShopForRegion`: descending tier
priority, then real slots before placeholders, then (for two real slots)
the display name; `localeCompare` is modelled as code-point comparison. -/
def slotCmp (a b : Pokemon) : Int :=
  let aPriority : Int := tierPriority a.tier
  let bPriority : Int := tierPriority b.tier
  if aPriority ≠ bPriority then bPriority - aPriority
  else if a.id = -1 ∧ b.id ≠ -1 then 1
  else if a.id ≠ -1 ∧ b.id = -1 then -1
  else if a.id ≠ -1 ∧ b.id ≠ -1 then
    if a.nombre < b.nombre then -1 else if b.nombre < a.nombre then 1 else 0
  else 0

/-- Shop builder `buildShopForRegion` (storeLogic.ts). -/
def buildShopForRegion (o : Oracle) (allPokemon : List Pokemon) (region : String)
    (config : AppConfig) (purchasedIds : List Int) (k : Nat) : List Pokemon × Nat :=
  let regionPool := allPokemon.filter (fun p => byRegion p region)
  let minQuota := normalizeMinQuota config.quota
  let weights := normalizeWeights config.tierWeights
  let tc := computeTierCounts o config.shopSize minQuota weights k
  let tiersByPriority := sortTiersDesc (keysOf tc.1)
  let built := tiersByPriority.foldl
    (processTier o regionPool region config purchasedIds weights tc.1) ([], tc.2)
  (built.1.mergeSort (fun a b => decide (slotCmp a b ≤ 0)), built.2)

/-- Helper `getCandidatesForTier` of `findRerollCandidate`: region+tier
pool minus purchased ids (when configured), minus visible ids (when
duplicates are disallowed), minus the forbidden id. -/
def getCandidatesForTier (allPokemon : List Pokemon) (region : String) (config : AppConfig)
    (usedIds purchasedIds : List Int) (forbiddenId : Option Int)
    (searchTier : String) : List Pokemon :=
  let pool := allPokemon.filter (fun p => byRegion p region && jsToUpper p.tier == searchTier)
  let pool := if config.includePurchasedInRerollPool then pool
    else pool.filter (fun p => !(purchasedIds.contains p.id))
  let pool := if config.allowDuplicates then pool
    else pool.filter (fun p => !(usedIds.contains p.id))
  match forbiddenId with
  | some fid => pool.filter (fun p => p.id != fid)
  | none => pool

/-- Fallback search of `findRerollCandidate`: first fallback tier with a
non-empty candidate pool. -/
def frcFallbackSearch (allPokemon : List Pokemon) (region : String) (config : AppConfig)
    (usedIds purchasedIds : List Int) (forbiddenId : Option Int) : List String → List Pokemon
  | [] => []
  | fallbackTier :: rest =>
    let pool := getCandidatesForTier allPokemon region config usedIds purchasedIds
      forbiddenId fallbackTier
    if 0 < pool.length then pool
    else frcFallbackSearch allPokemon region config usedIds purchasedIds forbiddenId rest

/-- Reroll resolver `findRerollCandidate` (storeLogic.ts): candidate pool
for the slot's tier (with tier fallback when enabled and the pool is
empty), then a uniformly random pick, or `none` when exhausted. -/
def findRerollCandidate (o : Oracle) (allPokemon : List Pokemon) (region : String)
    (tier : String) (usedIds purchasedIds : List Int) (forbiddenId : Option Int)
    (config : AppConfig) (k : Nat) : Option Pokemon × Nat :=
  let targetTier := jsToUpper tier
  let pool0 := getCandidatesForTier allPokemon region config usedIds purchasedIds
    forbiddenId targetTier
  let candidatePool :=
    if pool0.length = 0 ∧ config.tierFallback then
      frcFallbackSearch allPokemon region config usedIds purchasedIds forbiddenId
        (findFallbackTiers targetTier (normalizeWeights config.tierWeights))
    else pool0
  if candidatePool.length = 0 then (none, k)
  else (some (candidatePool.getD (draw o k candidatePool.length) default), k + 1)

/-! State machine (src/store/useShopStore.ts).  The store is embedded as a
pure state-transition system: each action takes the oracle, its arguments,
the current state and the draw counter, and returns the next state and
counter.  The persistence middleware, console logging and the delayed
auto-clear timer of the `exhausted` flag are asynchronous collaborators
outside the synchronous transition and are not part of the embedding. -/

structure HistoryEvent where
  id : Nat
  ts : Nat
  type : String
  message : String
deriving DecidableEq

structure PurchaseItem where
  id : Nat
  ts : Nat
  region : String
  pokemonId : Int
  nombre : String
  tier : String
  precio : ℚ
deriving DecidableEq

structure Snapshot where
  currentRegionIndex : Nat
  selectedRegionIndex : Nat
  selectedShopIndex : Nat
  shop : List Pokemon
  shopByIndex : List (Int × List Pokemon)
  rerollsUsedGlobal : Nat
  money : ℚ
  purchases : List PurchaseItem
  history : List HistoryEvent
deriving DecidableEq

structure ShopState where
  cfg : Option AppConfig
  data : List Pokemon
  regions : List String
  currentRegionIndex : Nat
  selectedRegionIndex : Nat
  selectedShopIndex : Nat
  lastShopIndex : Nat
  visitedRegions : List String
  shop : List Pokemon
  shopByIndex : List (Int × List Pokemon)
  rerollsUsedGlobal : Nat
  money : ℚ
  history : List HistoryEvent
  purchases : List PurchaseItem
  undoStack : List Snapshot
deriving DecidableEq

def UNDO_LIMIT : Nat := 20

/-- Stable negative cache key for a region index (`regionKeyFor`). -/
def regionKeyFor (index : Nat) : Int := -(index + 1)

/-- Deep copy of the undo-relevant fields (`snapshotOf`). -/
def snapshotOf (s : ShopState) : Snapshot :=
  { currentRegionIndex := s.currentRegionIndex
    selectedRegionIndex := s.selectedRegionIndex
    selectedShopIndex := s.selectedShopIndex
    shop := s.shop
    shopByIndex := s.shopByIndex
    rerollsUsedGlobal := s.rerollsUsedGlobal
    money := s.money
    purchases := s.purchases
    history := s.history }

/-- Push the current snapshot onto the bounded undo stack. -/
def pushSnapshot (s : ShopState) : ShopState :=
  { s with undoStack := (snapshotOf s :: s.undoStack).take UNDO_LIMIT }

/-- JS number argument of `addMoney`: finite rational, NaN, or an infinity. -/
inductive JSNumber where
  | finite (q : ℚ)
  | nan
  | posInf
  | negInf
deriving DecidableEq

def JSNumber.isFinite : JSNumber → Bool
  | .finite _ => true
  | _ => false

/-- Action `addMoney` (useShopStore.ts): no-op on 0 and non-finite
amounts; otherwise snapshot, add to the balance and record one event. -/
def addMoney (o : Oracle) (amount : JSNumber) (s : ShopState) (k : Nat) : ShopState × Nat :=
  match amount with
  | .finite q =>
    if q = 0 then (s, k)
    else
      let s1 := pushSnapshot s
      ({ s1 with
          money := s1.money + q
          history := { id := o.uuid k, ts := o.now (k + 1),
                       type := (if 0 < q then "money:add" else "money:subtract"),
                       message := "Saldo " ++ (if 0 < q then "+" else "") ++ toString q ++
                         ". Nuevo saldo: " ++ toString (s.money + q) } :: s1.history },
       k + 2)
  | _ => (s, k)

/-- Action `applySelectedRegionAndRefresh` (useShopStore.ts): snapshot,
resolve the target region shop by cache priority (per-region cache, then
group cache or fresh build depending on the group index), handle the
reroll recharge cycle, and propagate the shop to every cache key of the
regeneration group. -/
def applySelectedRegionAndRefresh (o : Oracle) (s : ShopState) (k : Nat) : ShopState × Nat :=
  match s.cfg with
  | none => (s, k)
  | some cfg =>
    let s1 := pushSnapshot s
    let regionIdx := s.selectedRegionIndex
    let shopIdx := s.selectedShopIndex
    let targetRegion := s.regions.getD regionIdx "undefined"
    let rk := regionKeyFor regionIdx
    let visitedBase := jsDedup s.visitedRegions
    let isNewRegionName := !(visitedBase.contains targetRegion)
    let purchasedIds := s.purchases.map (fun p => p.pokemonId)
    let cached := (getKey s.shopByIndex rk).getD []
    let built : List Pokemon × Nat :=
      if cached.length ≠ 0 then (cached, k)
      else if s.lastShopIndex ≠ shopIdx then
        buildShopForRegion o s.data targetRegion cfg purchasedIds k
      else
        let grp := (getKey s.shopByIndex (shopIdx : Int)).getD []
        if grp.length ≠ 0 then (grp, k)
        else buildShopForRegion o s.data targetRegion cfg purchasedIds k
    let visited2 := if isNewRegionName then visitedBase ++ [targetRegion] else visitedBase
    let nextRerollsUsed :=
      if isNewRegionName then
        if (0 < cfg.rerollRechargeEveryRegions ∧
            visited2.length % cfg.rerollRechargeEveryRegions = 1) ∨
            cfg.rerollRechargeEveryRegions = 1 then 0
        else s.rerollsUsedGlobal
      else s.rerollsUsedGlobal
    let groupSize := cfg.shopRefreshEveryRegions
    let groupStart := (regionIdx / groupSize) * groupSize
    let groupEnd := min (groupStart + groupSize - 1) (s.regions.length - 1)
    let nextSBI := (List.range' groupStart (groupEnd + 1 - groupStart)).foldl
      (fun m i => setKey m (regionKeyFor i) built.1)
      (setKey s1.shopByIndex (shopIdx : Int) built.1)
    ({ s1 with
        currentRegionIndex := regionIdx
        lastShopIndex := shopIdx
        shop := built.1
        shopByIndex := nextSBI
        visitedRegions := visited2
        rerollsUsedGlobal := nextRerollsUsed
        history := { id := o.uuid built.2, ts := o.now (built.2 + 1), type := "refresh",
                     message := "Región activa: " ++ targetRegion } :: s1.history },
     built.2 + 2)

/-- Action `refresh` (useShopStore.ts): delegate to the apply action when
the selected region differs from the active one; otherwise snapshot,
force a fresh build, optionally reset the reroll budget, and propagate
the shop to the active regeneration group. -/
def refresh (o : Oracle) (s : ShopState) (k : Nat) : ShopState × Nat :=
  match s.cfg with
  | none => (s, k)
  | some cfg =>
    let activeRegion := s.regions.getD s.currentRegionIndex "undefined"
    let selectedRegion := s.regions.getD s.selectedRegionIndex "undefined"
    if activeRegion ≠ selectedRegion then applySelectedRegionAndRefresh o s k
    else
      let shopIdx := s.selectedShopIndex
      let purchasedIds := s.purchases.map (fun p => p.pokemonId)
      let s1 := pushSnapshot s
      let built := buildShopForRegion o s.data activeRegion cfg purchasedIds k
      let nextUsed := if cfg.rerollResetOnRefresh then 0 else s.rerollsUsedGlobal
      let groupSize := cfg.shopRefreshEveryRegions
      let groupStart := (s.currentRegionIndex / groupSize) * groupSize
      let groupEnd := min (groupStart + groupSize - 1) (s.regions.length - 1)
      let groupRange := List.range' groupStart (groupEnd + 1 - groupStart)
      let nextSBI := groupRange.foldl (fun m i => setKey m (regionKeyFor i) built.1)
        (setKey s1.shopByIndex (shopIdx : Int) built.1)
      let allRegions := groupRange.map (fun i => s.regions.getD i "undefined")
      ({ s1 with
          shop := built.1
          shopByIndex := nextSBI
          rerollsUsedGlobal := nextUsed
          history := { id := o.uuid built.2, ts := o.now (built.2 + 1), type := "refresh",
                       message := "Tienda regenerada en " ++
                         String.intercalate ", " allRegions ++ "." } :: s1.history },
       built.2 + 2)

/-- Action `buyAt` (useShopStore.ts): silently ignore a missing or already
purchased slot; record only a history event on insufficient funds;
otherwise snapshot, deduct the price, record the purchase, replace or
mark the slot according to `shopBuySlotAutofill`, and propagate the shop
to the regeneration group caches. -/
def buyAt (o : Oracle) (index : Nat) (s : ShopState) (k : Nat) : ShopState × Nat :=
  match s.cfg with
  | none => (s, k)
  | some cfg =>
    match s.shop[index]? with
    | none => (s, k)
    | some slot =>
      if slot.purchased then (s, k)
      else if s.money < slot.precio then
        ({ s with
            history := { id := o.uuid k, ts := o.now (k + 1), type := "buy",
                         message := "Compra fallida de " ++ slot.nombre ++
                           ": saldo insuficiente." } :: s.history }, k + 2)
      else
        let s1 := pushSnapshot s
        let region := s.regions.getD s.currentRegionIndex "undefined"
        let shopIdx := s.selectedShopIndex
        let purchase : PurchaseItem :=
          { id := o.uuid k, ts := o.now (k + 1), region := region, pokemonId := slot.id,
            nombre := slot.nombre, tier := slot.tier, precio := slot.precio }
        let nsk : List Pokemon × Nat :=
          if cfg.shopBuySlotAutofill then
            let purchasedIds0 := s.purchases.map (fun p => p.pokemonId)
            let purchasedIds := if cfg.includePurchasedInRerollPool then purchasedIds0
              else purchasedIds0 ++ [slot.id]
            let usedIds := if cfg.allowDuplicates then []
              else ((s.shop.enum.filter (fun ia => ia.1 != index)).map (fun ia => ia.2.id))
            let cand := findRerollCandidate o s.data region slot.tier usedIds purchasedIds
              (some slot.id) cfg (k + 2)
            match cand.1 with
            | some c => (s.shop.set index c, cand.2)
            | none => (s.shop.set index
                { id := -1, nombre := "—", tier := slot.tier, precio := 0
                  regiones := [region] }, cand.2)
          else
            (s.shop.set index { slot with purchased := true, exhausted := false }, k + 2)
        let groupSize := cfg.shopRefreshEveryRegions
        let groupStart := (s.currentRegionIndex / groupSize) * groupSize
        let groupEnd := min (groupStart + groupSize - 1) (s.regions.length - 1)
        let nextSBI := (List.range' groupStart (groupEnd + 1 - groupStart)).foldl
          (fun m i => setKey m (regionKeyFor i) nsk.1)
          (setKey s1.shopByIndex (shopIdx : Int) nsk.1)
        ({ s1 with
            money := s1.money - slot.precio
            shop := nsk.1
            shopByIndex := nextSBI
            purchases := purchase :: s1.purchases
            history := { id := o.uuid nsk.2, ts := o.now (nsk.2 + 1), type := "buy",
                         message := "Compra de " ++ slot.nombre ++ " por " ++
                           toString slot.precio ++ " en " ++ region } :: s1.history },
         nsk.2 + 2)

/-- Action `rerollAt` (useShopStore.ts): rejected without effect when the
global budget is exhausted or the index is empty; when no candidate is
found, only flag the slot as exhausted (no snapshot, no budget use); on
success snapshot, consume one reroll, replace the slot and propagate to
the group caches.  The delayed auto-clear of the exhausted flag is a
timer outside the synchronous transition. -/
def rerollAt (o : Oracle) (index : Nat) (s : ShopState) (k : Nat) : ShopState × Nat :=
  match s.cfg with
  | none => (s, k)
  | some cfg =>
    let region := s.regions.getD s.currentRegionIndex "undefined"
    let shopIdx := s.selectedShopIndex
    if cfg.rerollsPerRegion ≤ s.rerollsUsedGlobal then (s, k)
    else
      match s.shop[index]? with
      | none => (s, k)
      | some slot =>
        let usedIds := if cfg.allowDuplicates then [] else s.shop.map (fun p => p.id)
        let purchasedIds := s.purchases.map (fun p => p.pokemonId)
        let cand := findRerollCandidate o s.data region slot.tier usedIds purchasedIds
          (some slot.id) cfg k
        match cand.1 with
        | none =>
          let newShop := s.shop.set index { slot with exhausted := true }
          ({ s with
              shop := newShop
              shopByIndex := setKey s.shopByIndex (shopIdx : Int) newShop }, cand.2)
        | some c =>
          let s1 := pushSnapshot s
          let newShop := s.shop.set index c
          let groupSize := cfg.shopRefreshEveryRegions
          let groupStart := (s.currentRegionIndex / groupSize) * groupSize
          let groupEnd := min (groupStart + groupSize - 1) (s.regions.length - 1)
          let nextSBI := (List.range' groupStart (groupEnd + 1 - groupStart)).foldl
            (fun m i => setKey m (regionKeyFor i) newShop)
            (setKey s1.shopByIndex (shopIdx : Int) newShop)
          ({ s1 with
              shop := newShop
              shopByIndex := nextSBI
              rerollsUsedGlobal := s.rerollsUsedGlobal + 1
              history := { id := o.uuid cand.2, ts := o.now (cand.2 + 1), type := "reroll",
                           message := "Reroll en " ++ slot.nombre ++ " → " ++ c.nombre ++
                             " (Tier " ++ jsToUpper slot.tier ++ ")." } :: s1.history },
           cand.2 + 2)

/-- Action `undoLast` (useShopStore.ts): pop the most recent snapshot and
restore every field it covers except `selectedShopIndex` and the history
log, to which one new undo event is prepended. -/
def undoLast (o : Oracle) (s : ShopState) (k : Nat) : ShopState × Nat :=
  match s.undoStack with
  | [] => (s, k)
  | top :: rest =>
    ({ s with
        currentRegionIndex := top.currentRegionIndex
        selectedRegionIndex := top.selectedRegionIndex
        shop := top.shop
        shopByIndex := top.shopByIndex
        visitedRegions := jsDedup s.visitedRegions
        rerollsUsedGlobal := top.rerollsUsedGlobal
        money := top.money
        purchases := top.purchases
        undoStack := rest
        history := { id := o.uuid k, ts := o.now (k + 1), type := "undo",
                     message := "Última acción deshecha." } :: s.history },
     k + 2)

/-- Spec-side comparison definition for the weight normalizer, written
from the spec's words: start from the built-in default map, overlay the
caller's entries with keys uppercased and values clamped to at least 0,
and return the default map entirely when the resulting total is 0. -/
def normalizeWeightsSpec (rawWeights : List (String × ℚ)) : List (String × ℚ) :=
  let overlaid := rawWeights.foldl
    (fun m kv => setKey m (jsToUpper kv.1) (max 0 kv.2)) defaultWeights
  let total : ℚ := (overlaid.map (fun kv => kv.2)).sum
  if total = 0 then defaultWeights else overlaid

/-- Total weight of a weight map. -/
def totalWeightOf (m : List (String × ℚ)) : ℚ := (m.map (fun kv => kv.2)).sum

/-! Concrete fixtures used by the witnesses and counterexamples below. -/

/-- Concrete deterministic oracle. -/
def oW : Oracle := { rand := fun _ => 0, frac := fun _ => 0, uuid := fun k => k, now := fun k => 1000 + k }

/-- Concrete catalog entry constructor. -/
def mkPoke (i : Int) (n t : String) (pr : ℚ) (rs : List String) : Pokemon :=
  { id := i, nombre := n, tier := t, precio := pr, regiones := rs }

/-- Concrete two-item catalog. -/
def catW : List Pokemon :=
  [mkPoke 1 "Bulbasaur" "S" 100 ["Kanto"], mkPoke 2 "Charmander" "S" 90 ["Kanto"]]

/-- Concrete configuration with a small shop. -/
def cfgW : AppConfig :=
  { shopSize := 2, quota := [("S", 1)], tierWeights := [("C", 40), ("B", 30), ("A", 20), ("S", 10)]
    regionsOrder := ["Kanto"], rerollsPerRegion := 3, rerollRechargeEveryRegions := 1
    shopRefreshEveryRegions := 1, rerollResetOnRefresh := true, allowDuplicates := false
    includePurchasedInRerollPool := false, shopBuySlotAutofill := false, tierFallback := false }

/-- Concrete configuration with an empty shop (for a cheap rebuild). -/
def cfgEmpty : AppConfig := { cfgW with shopSize := 0, quota := [] }

/-- Concrete placeholder slot. -/
def holeW : Pokemon := { id := -1, nombre := "—", tier := "S", precio := 0, regiones := ["Kanto"] }

/-- Concrete base state: placeholder at index 0, a real slot at index 1. -/
def stPH : ShopState :=
  { cfg := some cfgW, data := catW, regions := ["Kanto"], currentRegionIndex := 0
    selectedRegionIndex := 0, selectedShopIndex := 0, lastShopIndex := 0
    visitedRegions := ["Kanto"], shop := [holeW, mkPoke 1 "Bulbasaur" "S" 100 ["Kanto"]]
    shopByIndex := [], rerollsUsedGlobal := 0, money := 0, history := [], purchases := []
    undoStack := [] }

/-- Concrete state whose only region-S item already occupies the slot, so a
reroll finds no candidate. -/
def stExh : ShopState :=
  { stPH with data := [mkPoke 1 "Bulbasaur" "S" 100 ["Kanto"]]
              shop := [mkPoke 1 "Bulbasaur" "S" 100 ["Kanto"]] }

/-- Concrete state with enough money and a real slot (for a buy), and a
second catalog item so a reroll succeeds. -/
def stBuy : ShopState :=
  { stPH with shop := [mkPoke 1 "Bulbasaur" "S" 100 ["Kanto"]], money := 150 }

/-- Concrete state with a cached shop for the selected region (for a cheap
apply-region transition). -/
def stApply : ShopState :=
  { stPH with shopByIndex := [(regionKeyFor 0, [holeW])] }

/-- Concrete state for a manual refresh with an empty-shop configuration. -/
def stRefresh : ShopState := { stPH with cfg := some cfgEmpty, data := [] }


/-- The snapshot-pushing mutating operations of the store, as data. -/
inductive StoreOp where
  | applyRegion
  | refreshOp
  | addMoneyOp (amount : JSNumber)
  | buyOp (index : Nat)
  | rerollOp (index : Nat)

/-- Dispatch a mutating operation. -/
def runOp (o : Oracle) (op : StoreOp) (s : ShopState) (k : Nat) : ShopState × Nat :=
  match op with
  | .applyRegion => applySelectedRegionAndRefresh o s k
  | .refreshOp => refresh o s k
  | .addMoneyOp amount => addMoney o amount s k
  | .buyOp index => buyAt o index s k
  | .rerollOp index => rerollAt o index s k

/-- Success condition of a mutating operation: exactly the branch in which
the operation pushes an undo snapshot. -/
def opSucceeds (o : Oracle) (op : StoreOp) (s : ShopState) (k : Nat) : Prop :=
  match op with
  | .applyRegion => s.cfg.isSome = true
  | .refreshOp => s.cfg.isSome = true
  | .addMoneyOp amount => ∃ q : ℚ, amount = JSNumber.finite q ∧ q ≠ 0
  | .buyOp index => s.cfg.isSome = true ∧ ∃ slot, s.shop[index]? = some slot ∧
      slot.purchased = false ∧ ¬ s.money < slot.precio
  | .rerollOp index => ∃ cfg, s.cfg = some cfg ∧
      s.rerollsUsedGlobal < cfg.rerollsPerRegion ∧ ∃ slot, s.shop[index]? = some slot ∧
      (findRerollCandidate o s.data (s.regions.getD s.currentRegionIndex "undefined")
        slot.tier (if cfg.allowDuplicates then [] else s.shop.map (fun p => p.id))
        (s.purchases.map (fun p => p.pokemonId)) (some slot.id) cfg k).1.isSome = true

/-- Two slots have distinct identifiers whenever both are real. -/
def realDistinct (a b : Pokemon) : Prop := a.id ≠ -1 → b.id ≠ -1 → a.id ≠ b.id

/-! Permutation lemmas for the shuffle. -/


theorem cons_set_perm (t : List α) (m : Nat) (a b : α) (hb : t[m]? = some b) :
    b :: t.set m a ~ a :: t := by
  induction t generalizing m with
  | nil => simp at hb
  | cons y s ih =>
    cases m with
    | zero =>
      simp only [List.getElem?_cons_zero, Option.some.injEq] at hb
      subst hb
      simpa [List.set] using List.Perm.swap a y s
    | succ k =>
      simp only [List.getElem?_cons_succ] at hb
      calc b :: (y :: s).set (k + 1) a = b :: y :: s.set k a := by simp [List.set]
        _ ~ y :: b :: s.set k a := List.Perm.swap y b _
        _ ~ y :: (a :: s) := (ih k hb).cons y
        _ ~ a :: y :: s := List.Perm.swap a y s

theorem set_set_perm (l : List α) (i j : Nat) (a b : α)
    (ha : l[i]? = some a) (hb : l[j]? = some b) : (l.set i b).set j a ~ l := by
  induction l generalizing i j with
  | nil => simp at ha
  | cons x t ih =>
    cases i with
    | zero =>
      simp only [List.getElem?_cons_zero, Option.some.injEq] at ha
      subst ha
      cases j with
      | zero =>
        simp only [List.getElem?_cons_zero, Option.some.injEq] at hb
        subst hb
        simp [List.set]
      | succ m =>
        simp only [List.getElem?_cons_succ] at hb
        calc ((x :: t).set 0 b).set (m + 1) x = b :: t.set m x := by simp [List.set]
          _ ~ x :: t := cons_set_perm t m x b hb
    | succ m =>
      simp only [List.getElem?_cons_succ] at ha
      cases j with
      | zero =>
        simp only [List.getElem?_cons_zero, Option.some.injEq] at hb
        subst hb
        calc ((x :: t).set (m + 1) x).set 0 a = a :: t.set m x := by simp [List.set]
          _ ~ x :: t := cons_set_perm t m x a ha
      | succ n =>
        simp only [List.getElem?_cons_succ] at hb
        calc ((x :: t).set (m + 1) b).set (n + 1) a = x :: (t.set m b).set n a := by
              simp [List.set]
          _ ~ x :: t := (ih m n ha hb).cons x

theorem swapL_perm (l : List α) (i j : Nat) : swapL l i j ~ l := by
  unfold swapL
  cases ha : l[i]? with
  | none => exact List.Perm.refl l
  | some a =>
    cases hb : l[j]? with
    | none => exact List.Perm.refl l
    | some b => exact set_set_perm l i j a b ha hb

theorem fisherYatesGo_perm (o : Oracle) :
    ∀ (n : Nat) (l : List α) (k : Nat), (fisherYatesGo o n l k).1 ~ l := by
  intro n
  induction n with
  | zero => intro l k; exact List.Perm.refl l
  | succ m ih =>
    intro l k
    exact (ih _ _).trans (swapL_perm l (m + 1) (draw o k (m + 2)))

theorem fisherYates_perm (o : Oracle) (l : List α) (k : Nat) :
    (fisherYates o l k).1 ~ l :=
  fisherYatesGo_perm o (l.length - 1) l k

/-! Structural lemmas for the sampler scan. -/

theorem swrScan_length_le (eq : α → α → Bool) (count : Nat) (exclude : List α) :
    ∀ (l out : List α), (swrScan eq count exclude l out).length ≤ max out.length count := by
  intro l
  induction l with
  | nil => intro out; exact Nat.le_max_left _ _
  | cons x rest ih =>
    intro out
    by_cases hfull : count ≤ out.length
    · simp only [swrScan, if_pos hfull]
      exact Nat.le_max_left _ _
    · simp only [swrScan, if_neg hfull]
      by_cases hskip : exclude.any (fun e => eq e x) || out.any (fun e => eq e x)
      · simp only [hskip, if_true]
        exact ih out
      · simp only [hskip, if_false]
        refine (ih (out ++ [x])).trans ?_
        have h1 : out.length + 1 ≤ count := Nat.lt_of_not_le hfull
        simp only [List.length_append, List.length_cons, List.length_nil]
        omega

theorem swrScan_mem (eq : α → α → Bool) (count : Nat) (exclude : List α) :
    ∀ (l out : List α), ∀ y ∈ swrScan eq count exclude l out, y ∈ out ∨ y ∈ l := by
  intro l
  induction l with
  | nil => intro out y hy; exact Or.inl hy
  | cons x rest ih =>
    intro out y hy
    by_cases hfull : count ≤ out.length
    · simp only [swrScan, if_pos hfull] at hy
      exact Or.inl hy
    · simp only [swrScan, if_neg hfull] at hy
      by_cases hskip : exclude.any (fun e => eq e x) || out.any (fun e => eq e x)
      · simp only [hskip, if_true] at hy
        rcases ih out y hy with h | h
        · exact Or.inl h
        · exact Or.inr (List.mem_cons_of_mem x h)
      · simp only [hskip, if_false] at hy
        rcases ih (out ++ [x]) y hy with h | h
        · rcases List.mem_append.mp h with h' | h'
          · exact Or.inl h'
          · simp only [List.mem_singleton] at h'
            exact Or.inr (h' ▸ List.mem_cons_self x rest)
        · exact Or.inr (List.mem_cons_of_mem x h)

theorem swrScan_pairwise (eq : α → α → Bool) (count : Nat) (exclude : List α) :
    ∀ (l out : List α), out.Pairwise (fun a b => eq a b = false) →
      (swrScan eq count exclude l out).Pairwise (fun a b => eq a b = false) := by
  intro l
  induction l with
  | nil => intro out h; exact h
  | cons x rest ih =>
    intro out h
    by_cases hfull : count ≤ out.length
    · simpa only [swrScan, if_pos hfull] using h
    · simp only [swrScan, if_neg hfull]
      by_cases hskip : exclude.any (fun e => eq e x) || out.any (fun e => eq e x)
      · simp only [hskip, if_true]
        exact ih out h
      · simp only [hskip, if_false]
        refine ih (out ++ [x]) ?_
        rw [List.pairwise_append]
        refine ⟨h, List.pairwise_singleton _ _, ?_⟩
        intro a ha b hb
        rw [List.mem_singleton] at hb
        rw [hb]
        have hnone : (∀ e ∈ exclude, eq e x = false) ∧ ∀ e ∈ out, eq e x = false := by
          simpa using hskip
        exact hnone.2 a ha

theorem swrScan_not_excluded (eq : α → α → Bool) (count : Nat) (exclude : List α) :
    ∀ (l out : List α), ∀ y ∈ swrScan eq count exclude l out,
      y ∈ out ∨ ∀ e ∈ exclude, eq e y = false := by
  intro l
  induction l with
  | nil => intro out y hy; exact Or.inl hy
  | cons x rest ih =>
    intro out y hy
    by_cases hfull : count ≤ out.length
    · simp only [swrScan, if_pos hfull] at hy
      exact Or.inl hy
    · simp only [swrScan, if_neg hfull] at hy
      by_cases hskip : exclude.any (fun e => eq e x) || out.any (fun e => eq e x)
      · simp only [hskip, if_true] at hy
        exact ih out y hy
      · simp only [hskip, if_false] at hy
        rcases ih (out ++ [x]) y hy with h | h
        · rcases List.mem_append.mp h with h' | h'
          · exact Or.inl h'
          · simp only [List.mem_singleton] at h'
            refine Or.inr ?_
            have hnone : (∀ e ∈ exclude, eq e x = false) ∧ ∀ e ∈ out, eq e x = false := by
              simpa using hskip
            intro e he
            rw [h']
            exact hnone.1 e he
        · exact Or.inr h

theorem swrScan_length_eq (eq : α → α → Bool) (count : Nat) :
    ∀ (l out : List α), out.length ≤ count →
      l.Pairwise (fun a b => eq a b = false ∧ eq b a = false) →
      (∀ x ∈ l, ∀ e ∈ out, eq e x = false) →
      (swrScan eq count [] l out).length = min count (out.length + l.length) := by
  intro l
  induction l with
  | nil =>
    intro out hc _ _
    simp only [swrScan, List.length_nil, Nat.add_zero]
    omega
  | cons x rest ih =>
    intro out hc hpw hout
    by_cases hfull : count ≤ out.length
    · have : out.length = count := Nat.le_antisymm hc hfull
      simp only [swrScan, if_pos hfull, List.length_cons]
      omega
    · simp only [swrScan, if_neg hfull]
      have hnoout : (out.any fun e => eq e x) = false := by
        rw [List.any_eq_false]
        intro e he
        simpa using hout x (List.mem_cons_self x rest) e he
      have hcond : ¬((([] : List α).any fun e => eq e x) || out.any fun e => eq e x) = true := by
        simp [hnoout]
      rw [if_neg hcond]
      rw [List.pairwise_cons] at hpw
      have harg : ∀ z ∈ rest, ∀ e ∈ out ++ [x], eq e z = false := by
        intro z hz e he
        rcases List.mem_append.mp he with h' | h'
        · exact hout z (List.mem_cons_of_mem x hz) e h'
        · rw [List.mem_singleton] at h'
          rw [h']
          exact (hpw.1 z hz).1
      have hlen : (out ++ [x]).length ≤ count := by
        simp only [List.length_append, List.length_cons, List.length_nil]
        omega
      have hrec := ih (out ++ [x]) hlen hpw.2 harg
      simp only [List.length_append, List.length_cons, List.length_nil] at hrec ⊢
      omega

/-! Lemmas about the JS-object model. -/

theorem any_fst_beq_iff [BEq κ] [LawfulBEq κ] (m : List (κ × α)) (key : κ) :
    (m.any fun kv => kv.1 == key) = true ↔ key ∈ keysOf m := by
  simp [List.any_eq_true, keysOf, List.mem_map, beq_iff_eq]

theorem setKey_cons_ne [BEq κ] [LawfulBEq κ] {k₀ key : κ} (h : k₀ ≠ key) (v₀ : α)
    (rest : List (κ × α)) (v : α) :
    setKey ((k₀, v₀) :: rest) key v = (k₀, v₀) :: setKey rest key v := by
  unfold setKey
  have hbeq : (k₀ == key) = false := beq_eq_false_iff_ne.mpr h
  simp only [List.any_cons, hbeq, Bool.false_or]
  by_cases hrest : rest.any (fun kv => kv.1 == key)
  · simp [hrest, hbeq]
  · simp [hrest, hbeq]

theorem map_overwrite_eq_self [BEq κ] [LawfulBEq κ] (rest : List (κ × α)) (key : κ) (v : α)
    (h : ∀ kv ∈ rest, kv.1 ≠ key) :
    rest.map (fun kv => if kv.1 == key then (key, v) else kv) = rest := by
  induction rest with
  | nil => rfl
  | cons kv tl ih =>
    have hbeq : (kv.1 == key) = false := beq_eq_false_iff_ne.mpr (h kv (List.mem_cons_self kv tl))
    simp only [List.map_cons, hbeq, Bool.false_eq_true, if_false]
    rw [ih (fun kv2 h2 => h kv2 (List.mem_cons_of_mem kv h2))]

theorem setKey_cons_eq [BEq κ] [LawfulBEq κ] {k₀ key : κ} (h : k₀ = key) (v₀ : α)
    (rest : List (κ × α)) (v : α) :
    setKey ((k₀, v₀) :: rest) key v =
      (key, v) :: rest.map (fun kv => if kv.1 == key then (key, v) else kv) := by
  subst h
  unfold setKey
  simp

theorem getKey_cons_eq [BEq κ] [LawfulBEq κ] {k₀ key : κ} (h : k₀ = key) (v₀ : α)
    (rest : List (κ × α)) : getKey ((k₀, v₀) :: rest) key = some v₀ := by
  subst h
  simp [getKey]

theorem getKey_cons_ne [BEq κ] [LawfulBEq κ] {k₀ key : κ} (h : k₀ ≠ key) (v₀ : α)
    (rest : List (κ × α)) : getKey ((k₀, v₀) :: rest) key = getKey rest key := by
  have hbeq : (k₀ == key) = false := beq_eq_false_iff_ne.mpr h
  simp [getKey, List.find?, hbeq]

theorem keysOf_setKey [BEq κ] [LawfulBEq κ] (m : List (κ × α)) (key : κ) (v : α) :
    keysOf (setKey m key v) = if key ∈ keysOf m then keysOf m else keysOf m ++ [key] := by
  unfold setKey
  by_cases hmem : (m.any fun kv => kv.1 == key) = true
  · rw [if_pos hmem, if_pos ((any_fst_beq_iff m key).mp hmem)]
    unfold keysOf
    rw [List.map_map]
    refine List.map_congr_left ?_
    intro kv _
    by_cases hk : kv.1 = key
    · simp [hk]
    · simp [beq_eq_false_iff_ne.mpr hk]
  · rw [if_neg hmem, if_neg (fun hc => hmem ((any_fst_beq_iff m key).mpr hc))]
    simp [keysOf]

theorem keysOf_setKey_nodup [BEq κ] [LawfulBEq κ] (m : List (κ × α)) (key : κ) (v : α)
    (h : (keysOf m).Nodup) : (keysOf (setKey m key v)).Nodup := by
  rw [keysOf_setKey]
  by_cases hmem : key ∈ keysOf m
  · rwa [if_pos hmem]
  · rw [if_neg hmem]
    exact List.Nodup.append h (List.nodup_singleton key) (by simpa using hmem)

theorem sumValues_setKey_getD_add [BEq κ] [LawfulBEq κ] (m : List (κ × Nat)) (key : κ) (c : Nat)
    (h : (keysOf m).Nodup) :
    sumValues (setKey m key ((getKey m key).getD 0 + c)) = sumValues m + c := by
  induction m with
  | nil => simp [setKey, getKey, sumValues]
  | cons kv rest ih =>
    obtain ⟨k₀, v₀⟩ := kv
    simp only [keysOf, List.map_cons, List.nodup_cons] at h
    by_cases hk : k₀ = key
    · have hne : ∀ kv2 ∈ rest, kv2.1 ≠ key := by
        intro kv2 h2 he
        apply h.1
        rw [hk, ← he]
        exact List.mem_map_of_mem (fun kv => kv.1) h2
      rw [getKey_cons_eq hk, setKey_cons_eq hk, map_overwrite_eq_self rest key _ hne]
      simp only [sumValues, List.map_cons, List.sum_cons, Option.getD_some]
      omega
    · rw [getKey_cons_ne hk, setKey_cons_ne hk]
      simp only [sumValues, List.map_cons, List.sum_cons]
      have := ih h.2
      simp only [sumValues] at this
      omega

theorem ctcGo_sum_nodup (o : Oracle) (allTiers : List String) (w : List (String × ℚ)) :
    ∀ (n : Nat) (counts : List (String × Nat)) (k : Nat), (keysOf counts).Nodup →
      sumValues (ctcGo o allTiers w n counts k).1 = sumValues counts + n ∧
      (keysOf (ctcGo o allTiers w n counts k).1).Nodup := by
  intro n
  induction n with
  | zero => intro counts k h; exact ⟨by simp [ctcGo], h⟩
  | succ m ih =>
    intro counts k h
    have hstep := sumValues_setKey_getD_add counts
      (pickWeightedTier o allTiers w k).1 1 h
    have hnd := keysOf_setKey_nodup counts (pickWeightedTier o allTiers w k).1
      ((getKey counts (pickWeightedTier o allTiers w k).1).getD 0 + 1) h
    have := ih (setKey counts (pickWeightedTier o allTiers w k).1
      ((getKey counts (pickWeightedTier o allTiers w k).1).getD 0 + 1))
      (pickWeightedTier o allTiers w k).2 hnd
    refine ⟨?_, this.2⟩
    rw [ctcGo]
    rw [this.1, hstep]
    omega

theorem computeTierCounts_sum (o : Oracle) (shopSize : Nat) (minQ : List (String × Nat))
    (w : List (String × ℚ)) (k : Nat) (h : (keysOf minQ).Nodup) :
    sumValues (computeTierCounts o shopSize minQ w k).1 = max shopSize (sumValues minQ) := by
  unfold computeTierCounts
  have := (ctcGo_sum_nodup o (jsDedup (keysOf minQ ++ keysOf w)) w
    (shopSize - sumValues minQ) minQ k h).1
  rw [this]
  omega

theorem computeTierCounts_keys_nodup (o : Oracle) (shopSize : Nat) (minQ : List (String × Nat))
    (w : List (String × ℚ)) (k : Nat) (h : (keysOf minQ).Nodup) :
    (keysOf (computeTierCounts o shopSize minQ w k).1).Nodup :=
  (ctcGo_sum_nodup o (jsDedup (keysOf minQ ++ keysOf w)) w
    (shopSize - sumValues minQ) minQ k h).2

theorem normalizeMinQuota_keys_nodup (raw : List (String × ℚ)) :
    (keysOf (normalizeMinQuota raw)).Nodup := by
  unfold normalizeMinQuota
  suffices h : ∀ (l : List (String × ℚ)) (acc : List (String × Nat)), (keysOf acc).Nodup →
      (keysOf (l.foldl (fun minQuota kv =>
        if 0 < (max 0 ⌊kv.2⌋).toNat then setKey minQuota (jsToUpper kv.1) (max 0 ⌊kv.2⌋).toNat
        else minQuota) acc)).Nodup by
    exact h raw [] List.nodup_nil
  intro l
  induction l with
  | nil => intro acc h; exact h
  | cons kv tl ih =>
    intro acc h
    simp only [List.foldl_cons]
    by_cases hpos : 0 < (max 0 ⌊kv.2⌋).toNat
    · rw [if_pos hpos]
      exact ih _ (keysOf_setKey_nodup acc (jsToUpper kv.1) _ h)
    · rw [if_neg hpos]
      exact ih acc h

/-! Claim C5. -/

/-- C5, counterexample: with `shopSize = 1` and minimum quota `A ↦ 2`, the
tier counts sum to 2, which is neither equal to the shop size nor less
than it — the planner overflows above `shopSize`, it never undershoots. -/
theorem computeTierCounts_sum_counterexample :
    sumValues (computeTierCounts oW 1 [("A", 2)] defaultWeights 0).1 = 2 ∧
    ¬(sumValues (computeTierCounts oW 1 [("A", 2)] defaultWeights 0).1 = 1 ∨
      sumValues (computeTierCounts oW 1 [("A", 2)] defaultWeights 0).1 < 1) := by
  decide

/-- C5, amended: for every shop size, minimum-quota map (with the distinct
keys of a JS object) and weight map, the per-tier counts returned by
`computeTierCounts` sum to `shopSize`, or to the minimums' total — which
exceeds `shopSize` — when the minimums alone exceed it; that is, the sum
is `max shopSize (sum of minimums)`. -/
theorem computeTierCounts_sum_eq_max (o : Oracle) (shopSize : Nat)
    (minQ : List (String × Nat)) (w : List (String × ℚ)) (k : Nat)
    (h : (keysOf minQ).Nodup) :
    sumValues (computeTierCounts o shopSize minQ w k).1 = max shopSize (sumValues minQ) :=
  computeTierCounts_sum o shopSize minQ w k h

/-- C5, witness for the amended theorem at a concrete input. -/
theorem computeTierCounts_sum_eq_max_witness :
    (keysOf [("A", (2 : Nat))]).Nodup ∧
    sumValues (computeTierCounts oW 1 [("A", 2)] defaultWeights 0).1 = max 1 (sumValues [("A", 2)]) :=
  ⟨by decide, computeTierCounts_sum_eq_max oW 1 [("A", 2)] defaultWeights 0 (by decide)⟩


/-! Claim C10. -/

/-- C10: `addMoney` is a complete no-op for amounts that are 0 or not
finite (NaN, infinities); for every finite non-zero amount — negative ones
included, with no clamping of the resulting balance — it adds the amount
to the money, pushes one snapshot on the bounded undo stack, and prepends
exactly one history event, leaving every other field unchanged. -/
theorem addMoney_cases (o : Oracle) (s : ShopState) (k : Nat) :
    (∀ amount : JSNumber, (amount.isFinite = false ∨ amount = JSNumber.finite 0) →
      addMoney o amount s k = (s, k)) ∧
    (∀ q : ℚ, q ≠ 0 →
      (addMoney o (JSNumber.finite q) s k).1.money = s.money + q ∧
      (addMoney o (JSNumber.finite q) s k).1.undoStack =
        (snapshotOf s :: s.undoStack).take UNDO_LIMIT ∧
      (∃ e : HistoryEvent, (addMoney o (JSNumber.finite q) s k).1.history = e :: s.history) ∧
      (addMoney o (JSNumber.finite q) s k).1.purchases = s.purchases ∧
      (addMoney o (JSNumber.finite q) s k).1.shop = s.shop ∧
      (addMoney o (JSNumber.finite q) s k).1.shopByIndex = s.shopByIndex ∧
      (addMoney o (JSNumber.finite q) s k).1.rerollsUsedGlobal = s.rerollsUsedGlobal) := by
  constructor
  · intro amount h
    cases amount with
    | finite q =>
      rcases h with h | h
      · simp [JSNumber.isFinite] at h
      · rw [show q = 0 from by injection h]
        simp [addMoney]
    | nan => rfl
    | posInf => rfl
    | negInf => rfl
  · intro q hq
    refine ⟨by simp [addMoney, pushSnapshot, if_neg hq], by simp [addMoney, pushSnapshot, if_neg hq],
      ⟨{ id := o.uuid k, ts := o.now (k + 1),
         type := if 0 < q then "money:add" else "money:subtract",
         message := "Saldo " ++ (if 0 < q then "+" else "") ++ toString q ++
           ". Nuevo saldo: " ++ toString (s.money + q) },
       by simp [addMoney, pushSnapshot, if_neg hq]⟩, by simp [addMoney, pushSnapshot, if_neg hq],
      by simp [addMoney, pushSnapshot, if_neg hq], by simp [addMoney, pushSnapshot, if_neg hq],
      by simp [addMoney, pushSnapshot, if_neg hq]⟩

/-- C10, witness at concrete inputs. -/
theorem addMoney_cases_witness :
    ((JSNumber.nan.isFinite = false ∨ JSNumber.nan = JSNumber.finite 0) ∧
      addMoney oW JSNumber.nan stPH 0 = (stPH, 0)) ∧
    ((5 : ℚ) ≠ 0 ∧ (addMoney oW (JSNumber.finite 5) stPH 0).1.money = stPH.money + 5) :=
  ⟨⟨Or.inl rfl, (addMoney_cases oW stPH 0).1 JSNumber.nan (Or.inl rfl)⟩,
   ⟨by decide, ((addMoney_cases oW stPH 0).2 5 (by decide)).1⟩⟩


/-! Claim C6. -/

/-- C6: with remaining reroll budget, when `findRerollCandidate` returns no
candidate for the targeted slot, `rerollAt` marks that slot exhausted (and
mirrors the shop into the group cache key) without consuming the budget,
without pushing an undo snapshot, and without touching money, purchases or
history. -/
theorem rerollAt_exhausted_no_budget (o : Oracle) (s : ShopState) (cfg : AppConfig)
    (index : Nat) (slot : Pokemon) (k : Nat)
    (hcfg : s.cfg = some cfg)
    (hbudget : s.rerollsUsedGlobal < cfg.rerollsPerRegion)
    (hslot : s.shop[index]? = some slot)
    (hnone : (findRerollCandidate o s.data (s.regions.getD s.currentRegionIndex "undefined")
        slot.tier (if cfg.allowDuplicates then [] else s.shop.map (fun p => p.id))
        (s.purchases.map (fun p => p.pokemonId)) (some slot.id) cfg k).1 = none) :
    (rerollAt o index s k).1.shop = s.shop.set index { slot with exhausted := true } ∧
    (rerollAt o index s k).1.shop[index]? = some { slot with exhausted := true } ∧
    (rerollAt o index s k).1.rerollsUsedGlobal = s.rerollsUsedGlobal ∧
    (rerollAt o index s k).1.undoStack = s.undoStack ∧
    (rerollAt o index s k).1.money = s.money ∧
    (rerollAt o index s k).1.purchases = s.purchases ∧
    (rerollAt o index s k).1.history = s.history := by
  have hlt : index < s.shop.length := by
    rcases List.getElem?_eq_some.mp hslot with ⟨hl, _⟩
    exact hl
  have hred : (rerollAt o index s k).1 =
      { s with
        shop := s.shop.set index { slot with exhausted := true }
        shopByIndex := setKey s.shopByIndex (s.selectedShopIndex : Int)
          (s.shop.set index { slot with exhausted := true }) } := by
    have hnotle : ¬ cfg.rerollsPerRegion ≤ s.rerollsUsedGlobal := Nat.not_le.mpr hbudget
    rw [List.getD_eq_getElem?_getD] at hnone
    simp [rerollAt, hcfg, hslot, hnone, hnotle]
  refine ⟨by rw [hred], ?_, by rw [hred], by rw [hred], by rw [hred], by rw [hred], by rw [hred]⟩
  rw [hred]
  simp only [List.getElem?_set_self hlt]

/-- C6, witness: a concrete state whose only region item of the slot's
tier is the slot's own occupant, so the reroll search is exhausted. -/
theorem rerollAt_exhausted_no_budget_witness :
    stExh.cfg = some cfgW ∧ stExh.rerollsUsedGlobal < cfgW.rerollsPerRegion ∧
    stExh.shop[0]? = some (mkPoke 1 "Bulbasaur" "S" 100 ["Kanto"]) ∧
    (rerollAt oW 0 stExh 0).1.rerollsUsedGlobal = stExh.rerollsUsedGlobal ∧
    (rerollAt oW 0 stExh 0).1.undoStack = stExh.undoStack := by
  refine ⟨rfl, by decide, by decide, ?_, ?_⟩
  · exact (rerollAt_exhausted_no_budget oW stExh cfgW 0
      (mkPoke 1 "Bulbasaur" "S" 100 ["Kanto"]) 0 rfl (by decide) (by decide) (by decide)).2.2.1
  · exact (rerollAt_exhausted_no_budget oW stExh cfgW 0
      (mkPoke 1 "Bulbasaur" "S" 100 ["Kanto"]) 0 rfl (by decide) (by decide) (by decide)).2.2.2.1


/-! Claim C3. -/

/-- C3, counterexample: the slot at index 0 of `stPH` is a placeholder
(id = -1), yet `buyAt 0` is not a no-op — it records a purchase (a
placeholder has price 0, which never exceeds a non-negative balance, and
`buyAt` only guards against a missing or already purchased slot). -/
theorem buyAt_placeholder_not_noop :
    stPH.shop[0]?.map (fun p => p.id) = some (-1) ∧
    (buyAt oW 0 stPH 0).1 ≠ stPH ∧
    (buyAt oW 0 stPH 0).1.purchases.length = 1 := by
  refine ⟨by decide, ?_, by decide⟩
  intro h
  have : (buyAt oW 0 stPH 0).1.purchases.length = stPH.purchases.length := by rw [h]
  revert this
  decide

/-- C3, amended: `buyAt` is a no-op when the index is out of range or the
slot is already purchased; with a configured store, when the slot's price
exceeds the current money the only state change is one history event
prepended.  A placeholder slot is not guarded: it is bought like a real
slot (see the counterexample). -/
theorem buyAt_noop_and_insufficient_cases (o : Oracle) (s : ShopState) (k : Nat) :
    (∀ index, s.shop.length ≤ index → buyAt o index s k = (s, k)) ∧
    (∀ index slot, s.shop[index]? = some slot → slot.purchased = true →
      buyAt o index s k = (s, k)) ∧
    (∀ cfg index slot, s.cfg = some cfg → s.shop[index]? = some slot →
      slot.purchased = false → s.money < slot.precio →
      ∃ e : HistoryEvent, (buyAt o index s k).1 = { s with history := e :: s.history }) := by
  refine ⟨?_, ?_, ?_⟩
  · intro index hlen
    have hnone : s.shop[index]? = none := List.getElem?_eq_none hlen
    cases hcfg : s.cfg with
    | none => simp [buyAt, hcfg]
    | some cfg => simp [buyAt, hcfg, hnone]
  · intro index slot hslot hpurch
    cases hcfg : s.cfg with
    | none => simp [buyAt, hcfg]
    | some cfg => simp [buyAt, hcfg, hslot, hpurch]
  · intro cfg index slot hcfg hslot hpurch hmoney
    refine ⟨{ id := o.uuid k, ts := o.now (k + 1), type := "buy",
              message := "Compra fallida de " ++ slot.nombre ++ ": saldo insuficiente." }, ?_⟩
    simp [buyAt, hcfg, hslot, hpurch, hmoney]

/-- C3, witness for the amended theorem at concrete inputs. -/
theorem buyAt_noop_and_insufficient_cases_witness :
    (stPH.shop.length ≤ 5 ∧ buyAt oW 5 stPH 0 = (stPH, 0)) ∧
    (stPH.cfg = some cfgW ∧ stPH.shop[1]? = some (mkPoke 1 "Bulbasaur" "S" 100 ["Kanto"]) ∧
      (mkPoke 1 "Bulbasaur" "S" 100 ["Kanto"]).purchased = false ∧
      stPH.money < (mkPoke 1 "Bulbasaur" "S" 100 ["Kanto"]).precio ∧
      ∃ e : HistoryEvent, (buyAt oW 1 stPH 0).1 = { stPH with history := e :: stPH.history }) :=
  ⟨⟨by decide, (buyAt_noop_and_insufficient_cases oW stPH 0).1 5 (by decide)⟩,
   ⟨rfl, by decide, by decide, by decide,
    (buyAt_noop_and_insufficient_cases oW stPH 0).2.2 cfgW 1
      (mkPoke 1 "Bulbasaur" "S" 100 ["Kanto"]) rfl (by decide) (by decide) (by decide)⟩⟩


/-! Claim C7. -/

/-- C7, counterexample: a pool with two `eq`-equal elements yields fewer
than `min count |pool|` elements — the scan skips anything equal to an
already collected item, so duplicated pool entries are collapsed. -/
theorem sample_length_counterexample :
    (sampleWithoutReplacement oW [1, 1] 2 (fun a b => a == b) ([] : List Nat) 0).1 = [1] ∧
    (sampleWithoutReplacement oW [1, 1] 2 (fun a b => a == b) ([] : List Nat) 0).1.length ≠
      min 2 ([1, 1] : List Nat).length := by
  decide

/-- C7, amended: for every pool that is pairwise distinct under `eq`,
`sampleWithoutReplacement (pool, count, eq, [])` returns exactly
`min count |pool|` elements, pairwise distinct under `eq` and all drawn
from the pool (for a pool with `eq`-duplicates it returns one
representative per duplicate class, hence possibly fewer). -/
theorem sample_spec_on_distinct_pools (o : Oracle) (pool : List α) (count : Nat)
    (eq : α → α → Bool) (k : Nat)
    (h : pool.Pairwise (fun a b => eq a b = false ∧ eq b a = false)) :
    (sampleWithoutReplacement o pool count eq [] k).1.length = min count pool.length ∧
    (sampleWithoutReplacement o pool count eq [] k).1.Pairwise (fun a b => eq a b = false) ∧
    ∀ x ∈ (sampleWithoutReplacement o pool count eq [] k).1, x ∈ pool := by
  have hperm := fisherYates_perm o pool k
  have hpw : (fisherYates o pool k).1.Pairwise (fun a b => eq a b = false ∧ eq b a = false) :=
    (hperm.pairwise_iff (fun hab => ⟨hab.2, hab.1⟩)).mpr h
  refine ⟨?_, ?_, ?_⟩
  · have := swrScan_length_eq eq count (fisherYates o pool k).1 [] (Nat.zero_le count) hpw
      (fun x _ e he => absurd he (List.not_mem_nil e))
    simpa [sampleWithoutReplacement, hperm.length_eq] using this
  · exact swrScan_pairwise eq count [] (fisherYates o pool k).1 [] List.Pairwise.nil
  · intro x hx
    rcases swrScan_mem eq count [] (fisherYates o pool k).1 [] x hx with hmem | hmem
    · exact absurd hmem (List.not_mem_nil x)
    · exact hperm.mem_iff.mp hmem

/-- C7, witness for the amended theorem at a concrete input. -/
theorem sample_spec_on_distinct_pools_witness :
    ([1, 2] : List Nat).Pairwise (fun a b => (a == b) = false ∧ (b == a) = false) ∧
    (sampleWithoutReplacement oW [1, 2] 5 (fun a b : Nat => a == b) [] 0).1.length =
      min 5 ([1, 2] : List Nat).length :=
  ⟨by decide,
   (sample_spec_on_distinct_pools oW [1, 2] 5 (fun a b : Nat => a == b) 0 (by decide)).1⟩


/-! Claim C9: lemmas relating the two weight-normalization passes. -/

theorem setKey_append_of_not_mem [BEq κ] [LawfulBEq κ] (m : List (κ × α)) (key : κ) (v : α)
    (h : key ∉ keysOf m) : setKey m key v = m ++ [(key, v)] := by
  unfold setKey
  rw [if_neg (fun hc => h ((any_fst_beq_iff m key).mp hc))]

theorem map_clamp_setKey (m : List (String × ℚ)) (key : String) (v : ℚ) :
    (setKey m key v).map (fun kv => (kv.1, max 0 kv.2)) =
      setKey (m.map (fun kv => (kv.1, max 0 kv.2))) key (max 0 v) := by
  unfold setKey
  have hany : ((m.map fun kv => (kv.1, max 0 kv.2)).any fun kv => kv.1 == key) =
      (m.any fun kv => kv.1 == key) := by
    rw [List.any_map]
    rfl
  by_cases hc : (m.any fun kv => kv.1 == key) = true
  · rw [if_pos hc, if_pos (hany.trans hc)]
    rw [List.map_map, List.map_map]
    refine List.map_congr_left ?_
    intro kv _
    by_cases hk : kv.1 = key
    · simp [hk]
    · simp [hk]
  · have hc2 : ((m.map fun kv => (kv.1, max 0 kv.2)).any fun kv => kv.1 == key) ≠ true := by
      rw [hany]
      exact hc
    rw [if_neg hc, if_neg hc2, List.map_append]
    rfl

theorem foldl_upclamp_append (l acc : List (String × ℚ))
    (hnodup : (l.map (fun kv => jsToUpper kv.1)).Nodup)
    (hdisj : ∀ kv ∈ l, jsToUpper kv.1 ∉ keysOf acc) :
    l.foldl (fun w kv => setKey w (jsToUpper kv.1) (max 0 kv.2)) acc =
      acc ++ l.map (fun kv => (jsToUpper kv.1, max 0 kv.2)) := by
  induction l generalizing acc with
  | nil => simp
  | cons kv tl ih =>
    simp only [List.map_cons, List.nodup_cons] at hnodup
    have hstep : setKey acc (jsToUpper kv.1) (max 0 kv.2) = acc ++ [(jsToUpper kv.1, max 0 kv.2)] :=
      setKey_append_of_not_mem acc _ _ (hdisj kv (List.mem_cons_self kv tl))
    simp only [List.foldl_cons, hstep]
    rw [ih (acc ++ [(jsToUpper kv.1, max 0 kv.2)]) hnodup.2 ?_]
    · simp
    · intro kv2 h2 hmem
      unfold keysOf at hmem
      rw [List.map_append] at hmem
      rcases List.mem_append.mp hmem with hmem2 | hmem2
      · exact hdisj kv2 (List.mem_cons_of_mem kv h2) hmem2
      · simp only [List.map_cons, List.map_nil, List.mem_singleton] at hmem2
        refine hnodup.1 ?_
        rw [← hmem2]
        exact List.mem_map_of_mem (fun kv => jsToUpper kv.1) h2

theorem map_clamp_foldl_setKey (raw : List (String × ℚ)) :
    ∀ (m : List (String × ℚ)), (∀ kv ∈ raw, jsToUpper kv.1 = kv.1) →
      (raw.foldl (fun acc kv => setKey acc kv.1 kv.2) m).map (fun kv => (kv.1, max 0 kv.2)) =
        raw.foldl (fun w kv => setKey w (jsToUpper kv.1) (max 0 kv.2))
          (m.map (fun kv => (kv.1, max 0 kv.2))) := by
  induction raw with
  | nil => intro m _; simp
  | cons kv tl ih =>
    intro m hup
    simp only [List.foldl_cons]
    rw [ih (setKey m kv.1 kv.2) (fun kv2 h2 => hup kv2 (List.mem_cons_of_mem kv h2))]
    rw [map_clamp_setKey, hup kv (List.mem_cons_self kv tl)]

theorem keysOf_foldl_setKey_sub [BEq κ] [LawfulBEq κ] (raw : List (κ × α)) :
    ∀ (m : List (κ × α)) (key : κ),
      key ∈ keysOf (raw.foldl (fun acc kv => setKey acc kv.1 kv.2) m) →
      key ∈ keysOf m ∨ key ∈ raw.map (fun kv => kv.1) := by
  induction raw with
  | nil => intro m key h; exact Or.inl h
  | cons kv tl ih =>
    intro m key h
    simp only [List.foldl_cons] at h
    rcases ih (setKey m kv.1 kv.2) key h with h2 | h2
    · rw [keysOf_setKey] at h2
      by_cases hmem : kv.1 ∈ keysOf m
      · rw [if_pos hmem] at h2
        exact Or.inl h2
      · rw [if_neg hmem] at h2
        rcases List.mem_append.mp h2 with h3 | h3
        · exact Or.inl h3
        · simp only [List.mem_singleton] at h3
          exact Or.inr (h3 ▸ List.mem_cons_self kv.1 _)
    · exact Or.inr (List.mem_cons_of_mem _ h2)

theorem keysOf_foldl_setKey_nodup [BEq κ] [LawfulBEq κ] (raw : List (κ × α)) :
    ∀ (m : List (κ × α)), (keysOf m).Nodup →
      (keysOf (raw.foldl (fun acc kv => setKey acc kv.1 kv.2) m)).Nodup := by
  induction raw with
  | nil => intro m h; exact h
  | cons kv tl ih =>
    intro m h
    simp only [List.foldl_cons]
    exact ih _ (keysOf_setKey_nodup m kv.1 kv.2 h)

/-! Claim C9: counterexample, amended theorem, witness. -/

/-- C9, counterexample: the caller map `C:0, B:0, A:0, S:3, s:0` has two
keys that collide after uppercasing; the overwritten entry's clamped
value (3) still counts toward the zero-total check, so `normalizeWeights`
returns a map of total weight 0 instead of falling back to the default
map — the parenthetical guarantee of the claim fails. -/
theorem normalizeWeights_zero_total_counterexample :
    normalizeWeights [("C", 0), ("B", 0), ("A", 0), ("S", 3), ("s", 0)] =
      [("C", 0), ("B", 0), ("A", 0), ("S", 0)] ∧
    totalWeightOf (normalizeWeights [("C", 0), ("B", 0), ("A", 0), ("S", 3), ("s", 0)]) = 0 ∧
    normalizeWeights [("C", 0), ("B", 0), ("A", 0), ("S", 3), ("s", 0)] ≠ defaultWeights := by
  have hmerged : ([(("C" : String), (0 : ℚ)), ("B", 0), ("A", 0), ("S", 3), ("s", 0)].foldl
      (fun m kv => setKey m kv.1 kv.2) defaultWeights) =
      [("C", 0), ("B", 0), ("A", 0), ("S", 3), ("s", 0)] := by decide
  have hweights : ([(("C" : String), (0 : ℚ)), ("B", 0), ("A", 0), ("S", 3), ("s", 0)].foldl
      (fun w kv => setKey w (jsToUpper kv.1) (max 0 kv.2)) []) =
      [("C", 0), ("B", 0), ("A", 0), ("S", 0)] := by decide
  have hm0 : max (0 : ℚ) 0 = 0 := by decide
  have hm3 : max (0 : ℚ) 3 = 3 := by decide
  have htot : (([(("C" : String), (0 : ℚ)), ("B", 0), ("A", 0), ("S", 3), ("s", 0)].map
      (fun kv => max 0 kv.2)).sum : ℚ) = 3 := by
    simp only [List.map_cons, List.map_nil, hm0, hm3, List.sum_cons, List.sum_nil]
    norm_num
  have hres : normalizeWeights [("C", 0), ("B", 0), ("A", 0), ("S", 3), ("s", 0)] =
      [("C", 0), ("B", 0), ("A", 0), ("S", 0)] := by
    simp only [normalizeWeights, hmerged, hweights, htot]
    norm_num
  refine ⟨hres, ?_, ?_⟩
  · rw [hres]
    simp only [totalWeightOf, List.map_cons, List.map_nil, List.sum_cons, List.sum_nil]
    norm_num
  · rw [hres]
    decide

/-- C9, amended: for every caller-supplied weight map whose keys are
already uppercase and pairwise distinct (so no two keys collide after
uppercasing), `normalizeWeights` equals the spec-side description — the
built-in defaults `C:40, B:30, A:20, S:10` overlaid with the caller's
entries clamped to at least 0, with a full fallback to the defaults when
the total is exactly 0 — and the returned map never has total weight 0.
With colliding keys the overwritten entry still counts toward the
zero-total check and a zero-total map can be returned (counterexample). -/
theorem normalizeWeights_matches_spec_on_clean_keys (raw : List (String × ℚ))
    (hup : ∀ kv ∈ raw, jsToUpper kv.1 = kv.1)
    (hnd : (raw.map (fun kv => kv.1)).Nodup) :
    normalizeWeights raw = normalizeWeightsSpec raw ∧
    totalWeightOf (normalizeWeights raw) ≠ 0 := by
  have hdefup : ∀ key ∈ keysOf defaultWeights, jsToUpper key = key := by decide
  have hdefnd : (keysOf defaultWeights).Nodup := by decide
  have hmergednd : (keysOf (raw.foldl (fun acc kv => setKey acc kv.1 kv.2) defaultWeights)).Nodup :=
    keysOf_foldl_setKey_nodup raw defaultWeights hdefnd
  have hmergedup : ∀ key ∈ keysOf (raw.foldl (fun acc kv => setKey acc kv.1 kv.2) defaultWeights),
      jsToUpper key = key := by
    intro key hk
    rcases keysOf_foldl_setKey_sub raw defaultWeights key hk with h | h
    · exact hdefup key h
    · rcases List.mem_map.mp h with ⟨kv, hkv, rfl⟩
      exact hup kv hkv
  have hupkeys : ((raw.foldl (fun acc kv => setKey acc kv.1 kv.2) defaultWeights).map
      (fun kv => jsToUpper kv.1)).Nodup := by
    have : ((raw.foldl (fun acc kv => setKey acc kv.1 kv.2) defaultWeights).map
        (fun kv => jsToUpper kv.1)) =
        keysOf (raw.foldl (fun acc kv => setKey acc kv.1 kv.2) defaultWeights) := by
      unfold keysOf
      refine List.map_congr_left ?_
      intro kv hkv
      exact hmergedup kv.1 (List.mem_map_of_mem (fun kv => kv.1) hkv)
    rw [this]
    exact hmergednd
  have hpass : (raw.foldl (fun acc kv => setKey acc kv.1 kv.2) defaultWeights).foldl
      (fun w kv => setKey w (jsToUpper kv.1) (max 0 kv.2)) [] =
      (raw.foldl (fun acc kv => setKey acc kv.1 kv.2) defaultWeights).map
        (fun kv => (jsToUpper kv.1, max 0 kv.2)) := by
    have := foldl_upclamp_append (raw.foldl (fun acc kv => setKey acc kv.1 kv.2) defaultWeights)
      [] hupkeys (fun kv _ hmem => by simp [keysOf] at hmem)
    simpa using this
  have hmapup : (raw.foldl (fun acc kv => setKey acc kv.1 kv.2) defaultWeights).map
      (fun kv => (jsToUpper kv.1, max 0 kv.2)) =
      (raw.foldl (fun acc kv => setKey acc kv.1 kv.2) defaultWeights).map
        (fun kv => (kv.1, max 0 kv.2)) := by
    refine List.map_congr_left ?_
    intro kv hkv
    rw [hmergedup kv.1 (List.mem_map_of_mem (fun kv => kv.1) hkv)]
  have hoverlaid : raw.foldl (fun w kv => setKey w (jsToUpper kv.1) (max 0 kv.2)) defaultWeights =
      (raw.foldl (fun acc kv => setKey acc kv.1 kv.2) defaultWeights).map
        (fun kv => (kv.1, max 0 kv.2)) := by
    have := map_clamp_foldl_setKey raw defaultWeights hup
    have hdefclamp : defaultWeights.map (fun kv => (kv.1, max 0 kv.2)) = defaultWeights := by decide
    rw [hdefclamp] at this
    exact this.symm
  have htotal : ((raw.foldl (fun acc kv => setKey acc kv.1 kv.2) defaultWeights).map
      (fun kv => max 0 kv.2)).sum =
      totalWeightOf ((raw.foldl (fun acc kv => setKey acc kv.1 kv.2) defaultWeights).map
        (fun kv => (kv.1, max 0 kv.2))) := by
    unfold totalWeightOf
    rw [List.map_map]
    rfl
  constructor
  · simp only [normalizeWeights, normalizeWeightsSpec]
    rw [hpass, hmapup, hoverlaid, htotal]
    simp only [totalWeightOf]
  · simp only [normalizeWeights]
    rw [hpass, hmapup, htotal]
    by_cases hz : totalWeightOf ((raw.foldl (fun acc kv => setKey acc kv.1 kv.2)
        defaultWeights).map (fun kv => (kv.1, max 0 kv.2))) = 0
    · rw [if_pos hz]
      simp only [totalWeightOf, defaultWeights, List.map_cons, List.map_nil,
        List.sum_cons, List.sum_nil]
      norm_num
    · rw [if_neg hz]
      exact hz

/-- C9, witness for the amended theorem at a concrete input. -/
theorem normalizeWeights_matches_spec_on_clean_keys_witness :
    (∀ kv ∈ [(("S" : String), (5 : ℚ)), ("B", 0)], jsToUpper kv.1 = kv.1) ∧
    (([(("S" : String), (5 : ℚ)), ("B", 0)].map (fun kv => kv.1)).Nodup) ∧
    normalizeWeights [("S", 5), ("B", 0)] = normalizeWeightsSpec [("S", 5), ("B", 0)] :=
  ⟨by decide, by decide,
   (normalizeWeights_matches_spec_on_clean_keys [("S", 5), ("B", 0)] (by decide) (by decide)).1⟩


/-! Claim C2: undo after a single mutating operation. -/

theorem undoLast_after_push (o : Oracle) (s s1 : ShopState) (k1 : Nat)
    (hundo : s1.undoStack = (snapshotOf s :: s.undoStack).take UNDO_LIMIT) :
    (undoLast o s1 k1).1.currentRegionIndex = s.currentRegionIndex ∧
    (undoLast o s1 k1).1.selectedRegionIndex = s.selectedRegionIndex ∧
    (undoLast o s1 k1).1.selectedShopIndex = s1.selectedShopIndex ∧
    (undoLast o s1 k1).1.shop = s.shop ∧
    (undoLast o s1 k1).1.shopByIndex = s.shopByIndex ∧
    (undoLast o s1 k1).1.rerollsUsedGlobal = s.rerollsUsedGlobal ∧
    (undoLast o s1 k1).1.money = s.money ∧
    (undoLast o s1 k1).1.purchases = s.purchases ∧
    (undoLast o s1 k1).1.history =
      { id := o.uuid k1, ts := o.now (k1 + 1), type := "undo",
        message := "Última acción deshecha." } :: s1.history := by
  have hstack : s1.undoStack = snapshotOf s :: (s.undoStack.take 19) := by
    rw [hundo]
    rfl
  refine ⟨?_, ?_, ?_, ?_, ?_, ?_, ?_, ?_, ?_⟩ <;>
    simp [undoLast, hstack, snapshotOf]

theorem applySelected_push_shape (o : Oracle) (s : ShopState) (k : Nat) (cfg : AppConfig)
    (hcfg : s.cfg = some cfg) :
    (applySelectedRegionAndRefresh o s k).1.undoStack =
      (snapshotOf s :: s.undoStack).take UNDO_LIMIT ∧
    (applySelectedRegionAndRefresh o s k).1.selectedShopIndex = s.selectedShopIndex ∧
    (applySelectedRegionAndRefresh o s k).1.history.tail = s.history ∧
    (applySelectedRegionAndRefresh o s k).1.history ≠ [] := by
  refine ⟨?_, ?_, ?_, ?_⟩ <;> simp [applySelectedRegionAndRefresh, hcfg, pushSnapshot]

theorem refresh_push_shape (o : Oracle) (s : ShopState) (k : Nat) (cfg : AppConfig)
    (hcfg : s.cfg = some cfg) :
    (refresh o s k).1.undoStack = (snapshotOf s :: s.undoStack).take UNDO_LIMIT ∧
    (refresh o s k).1.selectedShopIndex = s.selectedShopIndex ∧
    (refresh o s k).1.history.tail = s.history ∧
    (refresh o s k).1.history ≠ [] := by
  by_cases hsame : s.regions[s.currentRegionIndex]?.getD "undefined" =
      s.regions[s.selectedRegionIndex]?.getD "undefined"
  · refine ⟨?_, ?_, ?_, ?_⟩ <;> simp [refresh, hcfg, hsame, pushSnapshot]
  · have hdelegate : refresh o s k = applySelectedRegionAndRefresh o s k := by
      simp [refresh, hcfg, hsame]
    rw [hdelegate]
    exact applySelected_push_shape o s k cfg hcfg

theorem addMoney_push_shape (o : Oracle) (s : ShopState) (k : Nat) (q : ℚ) (hq : q ≠ 0) :
    (addMoney o (JSNumber.finite q) s k).1.undoStack =
      (snapshotOf s :: s.undoStack).take UNDO_LIMIT ∧
    (addMoney o (JSNumber.finite q) s k).1.selectedShopIndex = s.selectedShopIndex ∧
    (addMoney o (JSNumber.finite q) s k).1.history.tail = s.history ∧
    (addMoney o (JSNumber.finite q) s k).1.history ≠ [] := by
  refine ⟨?_, ?_, ?_, ?_⟩ <;> simp [addMoney, pushSnapshot, if_neg hq]

theorem buyAt_push_shape (o : Oracle) (s : ShopState) (k : Nat) (cfg : AppConfig)
    (index : Nat) (slot : Pokemon) (hcfg : s.cfg = some cfg)
    (hslot : s.shop[index]? = some slot) (hpurch : slot.purchased = false)
    (hmoney : ¬ s.money < slot.precio) :
    (buyAt o index s k).1.undoStack = (snapshotOf s :: s.undoStack).take UNDO_LIMIT ∧
    (buyAt o index s k).1.selectedShopIndex = s.selectedShopIndex ∧
    (buyAt o index s k).1.history.tail = s.history ∧
    (buyAt o index s k).1.history ≠ [] := by
  refine ⟨?_, ?_, ?_, ?_⟩ <;> simp [buyAt, hcfg, hslot, hpurch, hmoney, pushSnapshot]

theorem rerollAt_push_shape (o : Oracle) (s : ShopState) (k : Nat) (cfg : AppConfig)
    (index : Nat) (slot : Pokemon) (c : Pokemon) (hcfg : s.cfg = some cfg)
    (hbudget : s.rerollsUsedGlobal < cfg.rerollsPerRegion)
    (hslot : s.shop[index]? = some slot)
    (hcand : (findRerollCandidate o s.data (s.regions.getD s.currentRegionIndex "undefined")
        slot.tier (if cfg.allowDuplicates then [] else s.shop.map (fun p => p.id))
        (s.purchases.map (fun p => p.pokemonId)) (some slot.id) cfg k).1 = some c) :
    (rerollAt o index s k).1.undoStack = (snapshotOf s :: s.undoStack).take UNDO_LIMIT ∧
    (rerollAt o index s k).1.selectedShopIndex = s.selectedShopIndex ∧
    (rerollAt o index s k).1.history.tail = s.history ∧
    (rerollAt o index s k).1.history ≠ [] := by
  have hnotle : ¬ cfg.rerollsPerRegion ≤ s.rerollsUsedGlobal := Nat.not_le.mpr hbudget
  rw [List.getD_eq_getElem?_getD] at hcand
  refine ⟨?_, ?_, ?_, ?_⟩ <;> simp [rerollAt, hcfg, hslot, hcand, hnotle, pushSnapshot]

/-- C2, counterexample: in the initial concrete state the history is
empty; after `addMoney 5` and an immediate `undoLast` the history has two
entries (the money event and the undo event), not one — undo does not
rewind the history to the pre-operation log plus a single undo entry. -/
theorem undo_history_counterexample :
    stPH.history = [] ∧
    (undoLast oW (addMoney oW (JSNumber.finite 5) stPH 0).1
      (addMoney oW (JSNumber.finite 5) stPH 0).2).1.history.length = 2 ∧
    (undoLast oW (addMoney oW (JSNumber.finite 5) stPH 0).1
      (addMoney oW (JSNumber.finite 5) stPH 0).2).1.history.length ≠
      stPH.history.length + 1 := by
  refine ⟨rfl, ?_, ?_⟩ <;> decide

/-- C2, amended: immediately after any single snapshot-pushing mutating
operation (apply region, refresh, add money, buy, reroll, each on its
success path), `undoLast` restores every field covered by the Snapshot —
region indices, shop, per-index shop caches, reroll counter, money,
purchases; the shop-group index is not restored from the snapshot but is
unchanged by every such operation — except the history log, which instead
equals the pre-operation history with the operation's own event and then
exactly one new undo entry prepended. -/
theorem undo_restores_after_each_op (o : Oracle) (op : StoreOp) (s : ShopState) (k : Nat)
    (hsucc : opSucceeds o op s k) :
    (undoLast o (runOp o op s k).1 (runOp o op s k).2).1.currentRegionIndex =
      s.currentRegionIndex ∧
    (undoLast o (runOp o op s k).1 (runOp o op s k).2).1.selectedRegionIndex =
      s.selectedRegionIndex ∧
    (undoLast o (runOp o op s k).1 (runOp o op s k).2).1.selectedShopIndex =
      s.selectedShopIndex ∧
    (undoLast o (runOp o op s k).1 (runOp o op s k).2).1.shop = s.shop ∧
    (undoLast o (runOp o op s k).1 (runOp o op s k).2).1.shopByIndex = s.shopByIndex ∧
    (undoLast o (runOp o op s k).1 (runOp o op s k).2).1.rerollsUsedGlobal =
      s.rerollsUsedGlobal ∧
    (undoLast o (runOp o op s k).1 (runOp o op s k).2).1.money = s.money ∧
    (undoLast o (runOp o op s k).1 (runOp o op s k).2).1.purchases = s.purchases ∧
    ∃ e₁ e₂, (undoLast o (runOp o op s k).1 (runOp o op s k).2).1.history =
      e₁ :: e₂ :: s.history ∧ e₁.type = "undo" := by
  have hshape : (runOp o op s k).1.undoStack =
      (snapshotOf s :: s.undoStack).take UNDO_LIMIT ∧
      (runOp o op s k).1.selectedShopIndex = s.selectedShopIndex ∧
      (runOp o op s k).1.history.tail = s.history ∧
      (runOp o op s k).1.history ≠ [] := by
    cases op with
    | applyRegion =>
      rcases Option.isSome_iff_exists.mp hsucc with ⟨cfg, hcfg⟩
      exact applySelected_push_shape o s k cfg hcfg
    | refreshOp =>
      rcases Option.isSome_iff_exists.mp hsucc with ⟨cfg, hcfg⟩
      exact refresh_push_shape o s k cfg hcfg
    | addMoneyOp amount =>
      rcases hsucc with ⟨q, rfl, hq⟩
      exact addMoney_push_shape o s k q hq
    | buyOp index =>
      rcases hsucc with ⟨hcfg0, slot, hslot, hpurch, hmoney⟩
      rcases Option.isSome_iff_exists.mp hcfg0 with ⟨cfg, hcfg⟩
      exact buyAt_push_shape o s k cfg index slot hcfg hslot hpurch hmoney
    | rerollOp index =>
      rcases hsucc with ⟨cfg, hcfg, hbudget, slot, hslot, hcand0⟩
      rcases Option.isSome_iff_exists.mp hcand0 with ⟨c, hcand⟩
      exact rerollAt_push_shape o s k cfg index slot c hcfg hbudget hslot hcand
  have hu := undoLast_after_push o s (runOp o op s k).1 (runOp o op s k).2 hshape.1
  refine ⟨hu.1, hu.2.1, hu.2.2.1.trans hshape.2.1, hu.2.2.2.1, hu.2.2.2.2.1,
    hu.2.2.2.2.2.1, hu.2.2.2.2.2.2.1, hu.2.2.2.2.2.2.2.1, ?_⟩
  rcases List.exists_cons_of_ne_nil hshape.2.2.2 with ⟨e₂, tl, hl⟩
  refine ⟨{ id := o.uuid (runOp o op s k).2, ts := o.now ((runOp o op s k).2 + 1),
            type := "undo", message := "Última acción deshecha." }, e₂, ?_, rfl⟩
  rw [hu.2.2.2.2.2.2.2.2, hl]
  have : tl = s.history := by
    have := hshape.2.2.1
    rw [hl] at this
    simpa using this
  rw [this]

/-- C2, witness: the amended theorem applied to each of the five
operations at concrete states. -/
theorem undo_restores_after_each_op_witness :
    (opSucceeds oW StoreOp.applyRegion stApply 0 ∧
      (undoLast oW (runOp oW StoreOp.applyRegion stApply 0).1
        (runOp oW StoreOp.applyRegion stApply 0).2).1.money = stApply.money) ∧
    (opSucceeds oW StoreOp.refreshOp stRefresh 0 ∧
      (undoLast oW (runOp oW StoreOp.refreshOp stRefresh 0).1
        (runOp oW StoreOp.refreshOp stRefresh 0).2).1.shop = stRefresh.shop) ∧
    (opSucceeds oW (StoreOp.addMoneyOp (JSNumber.finite 5)) stPH 0 ∧
      (undoLast oW (runOp oW (StoreOp.addMoneyOp (JSNumber.finite 5)) stPH 0).1
        (runOp oW (StoreOp.addMoneyOp (JSNumber.finite 5)) stPH 0).2).1.money = stPH.money) ∧
    (opSucceeds oW (StoreOp.buyOp 0) stBuy 0 ∧
      (undoLast oW (runOp oW (StoreOp.buyOp 0) stBuy 0).1
        (runOp oW (StoreOp.buyOp 0) stBuy 0).2).1.purchases = stBuy.purchases) ∧
    (opSucceeds oW (StoreOp.rerollOp 0) stBuy 0 ∧
      (undoLast oW (runOp oW (StoreOp.rerollOp 0) stBuy 0).1
        (runOp oW (StoreOp.rerollOp 0) stBuy 0).2).1.rerollsUsedGlobal =
        stBuy.rerollsUsedGlobal) := by
  have h1 : opSucceeds oW StoreOp.applyRegion stApply 0 := rfl
  have h2 : opSucceeds oW StoreOp.refreshOp stRefresh 0 := rfl
  have h3 : opSucceeds oW (StoreOp.addMoneyOp (JSNumber.finite 5)) stPH 0 :=
    ⟨5, rfl, by decide⟩
  have h4 : opSucceeds oW (StoreOp.buyOp 0) stBuy 0 :=
    ⟨rfl, mkPoke 1 "Bulbasaur" "S" 100 ["Kanto"], by decide, by decide, by decide⟩
  have h5 : opSucceeds oW (StoreOp.rerollOp 0) stBuy 0 := by
    refine ⟨cfgW, rfl, by decide, mkPoke 1 "Bulbasaur" "S" 100 ["Kanto"], by decide, by decide⟩
  exact ⟨⟨h1, (undo_restores_after_each_op oW StoreOp.applyRegion stApply 0 h1).2.2.2.2.2.2.1⟩,
    ⟨h2, (undo_restores_after_each_op oW StoreOp.refreshOp stRefresh 0 h2).2.2.2.1⟩,
    ⟨h3, (undo_restores_after_each_op oW (StoreOp.addMoneyOp (JSNumber.finite 5))
      stPH 0 h3).2.2.2.2.2.2.1⟩,
    ⟨h4, (undo_restores_after_each_op oW (StoreOp.buyOp 0) stBuy 0 h4).2.2.2.2.2.2.2.1⟩,
    ⟨h5, (undo_restores_after_each_op oW (StoreOp.rerollOp 0) stBuy 0 h5).2.2.2.2.2.1⟩⟩


/-! Claim C8: the final sort comparator is a total preorder. -/

theorem slotCmp_le_iff (a b : Pokemon) :
    slotCmp a b ≤ 0 ↔
      (tierPriority b.tier < tierPriority a.tier ∨
        (tierPriority a.tier = tierPriority b.tier ∧
          ((if a.id = -1 then (1 : Nat) else 0) < (if b.id = -1 then 1 else 0) ∨
            ((if a.id = -1 then (1 : Nat) else 0) = (if b.id = -1 then 1 else 0) ∧
              (if a.id = -1 then "" else a.nombre) ≤ (if b.id = -1 then "" else b.nombre))))) := by
  simp only [slotCmp]
  by_cases hpri : (tierPriority a.tier : Int) ≠ (tierPriority b.tier : Int)
  · rw [if_pos hpri]
    have hne : tierPriority a.tier ≠ tierPriority b.tier := by
      intro h
      exact hpri (by exact_mod_cast h)
    constructor
    · intro h
      refine Or.inl ?_
      have : (tierPriority b.tier : Int) ≤ (tierPriority a.tier : Int) := by omega
      have hle : tierPriority b.tier ≤ tierPriority a.tier := by exact_mod_cast this
      omega
    · intro h
      rcases h with h | h
      · have : (tierPriority b.tier : Int) < (tierPriority a.tier : Int) := by exact_mod_cast h
        omega
      · exact absurd h.1 hne
  · rw [if_neg hpri]
    have heq : tierPriority a.tier = tierPriority b.tier := by
      have := not_ne_iff.mp hpri
      exact_mod_cast this
    by_cases ha : a.id = -1 <;> by_cases hb : b.id = -1
    · simp [ha, hb, heq]
    · simp [ha, hb, heq]
    · simp [ha, hb, heq]
    · have hc1 : ¬(a.id = -1 ∧ b.id ≠ -1) := fun h => ha h.1
      have hc2 : ¬(a.id ≠ -1 ∧ b.id = -1) := fun h => hb h.2
      have hc3 : a.id ≠ -1 ∧ b.id ≠ -1 := ⟨ha, hb⟩
      rw [if_neg hc1, if_neg hc2, if_pos hc3]
      simp only [if_neg ha, if_neg hb, heq, lt_self_iff_false, false_or,
        eq_self_iff_true, true_and]
      constructor
      · intro hle
        by_cases hlt : a.nombre < b.nombre
        · exact le_of_lt hlt
        · by_cases hgt : b.nombre < a.nombre
          · rw [if_neg hlt, if_pos hgt] at hle
            omega
          · exact not_lt.mp hgt
      · intro hnle
        have hngt : ¬ b.nombre < a.nombre := not_lt.mpr hnle
        by_cases hlt : a.nombre < b.nombre
        · rw [if_pos hlt]
          omega
        · rw [if_neg hlt, if_neg hngt]

theorem slotCmpLe_total (a b : Pokemon) : slotCmp a b ≤ 0 ∨ slotCmp b a ≤ 0 := by
  rw [slotCmp_le_iff, slotCmp_le_iff]
  rcases Nat.lt_trichotomy (tierPriority a.tier) (tierPriority b.tier) with h | h | h
  · exact Or.inr (Or.inl h)
  · rcases Nat.lt_trichotomy (if a.id = -1 then (1 : Nat) else 0)
        (if b.id = -1 then (1 : Nat) else 0) with h2 | h2 | h2
    · exact Or.inl (Or.inr ⟨h, Or.inl h2⟩)
    · rcases le_total (if a.id = -1 then "" else a.nombre)
          (if b.id = -1 then "" else b.nombre) with h3 | h3
      · exact Or.inl (Or.inr ⟨h, Or.inr ⟨h2, h3⟩⟩)
      · exact Or.inr (Or.inr ⟨h.symm, Or.inr ⟨h2.symm, h3⟩⟩)
    · exact Or.inr (Or.inr ⟨h.symm, Or.inl h2⟩)
  · exact Or.inl (Or.inl h)

theorem slotCmpLe_trans (a b c : Pokemon) (h1 : slotCmp a b ≤ 0) (h2 : slotCmp b c ≤ 0) :
    slotCmp a c ≤ 0 := by
  rw [slotCmp_le_iff] at h1 h2 ⊢
  rcases h1 with h1 | ⟨he1, h1⟩
  · rcases h2 with h2 | ⟨he2, h2⟩
    · exact Or.inl (lt_trans h2 h1)
    · exact Or.inl (he2 ▸ h1)
  · rcases h2 with h2 | ⟨he2, h2⟩
    · exact Or.inl (he1 ▸ h2)
    · refine Or.inr ⟨he1.trans he2, ?_⟩
      rcases h1 with h1 | ⟨hr1, h1⟩
      · rcases h2 with h2 | ⟨hr2, h2⟩
        · exact Or.inl (lt_trans h1 h2)
        · exact Or.inl (hr2 ▸ h1)
      · rcases h2 with h2 | ⟨hr2, h2⟩
        · exact Or.inl (hr1 ▸ h2)
        · exact Or.inr ⟨hr1.trans hr2, le_trans h1 h2⟩

/-- C8: for every oracle, catalog, region, purchase set and configuration,
the list returned by `buildShopForRegion` is sorted by descending tier
priority; within a tier no real slot follows a placeholder, and two real
slots of the same tier are ordered by name (`localeCompare` modelled as
code-point order). -/
theorem buildShop_sorted (o : Oracle) (allPokemon : List Pokemon) (region : String)
    (config : AppConfig) (purchasedIds : List Int) (k : Nat) :
    (buildShopForRegion o allPokemon region config purchasedIds k).1.Pairwise
      (fun a b =>
        tierPriority b.tier ≤ tierPriority a.tier ∧
        (tierPriority a.tier = tierPriority b.tier → a.id = -1 → b.id = -1) ∧
        (tierPriority a.tier = tierPriority b.tier → a.id ≠ -1 → b.id ≠ -1 →
          a.nombre ≤ b.nombre)) := by
  have htrans : ∀ a b c : Pokemon, (fun a b => decide (slotCmp a b ≤ 0)) a b →
      (fun a b => decide (slotCmp a b ≤ 0)) b c →
      (fun a b => decide (slotCmp a b ≤ 0)) a c := by
    intro a b c hab hbc
    simp only [decide_eq_true_eq] at hab hbc ⊢
    exact slotCmpLe_trans a b c hab hbc
  have htotal : ∀ a b : Pokemon, ((fun a b => decide (slotCmp a b ≤ 0)) a b ||
      (fun a b => decide (slotCmp a b ≤ 0)) b a) := by
    intro a b
    simp only [Bool.or_eq_true, decide_eq_true_eq]
    exact slotCmpLe_total a b
  have hsorted := List.sorted_mergeSort htrans htotal
    (let regionPool := allPokemon.filter (fun p => byRegion p region)
     let minQuota := normalizeMinQuota config.quota
     let weights := normalizeWeights config.tierWeights
     let tc := computeTierCounts o config.shopSize minQuota weights k
     let tiersByPriority := sortTiersDesc (keysOf tc.1)
     (tiersByPriority.foldl
       (processTier o regionPool region config purchasedIds weights tc.1) ([], tc.2)).1)
  refine List.Pairwise.imp ?_ hsorted
  intro a b hab
  simp only [decide_eq_true_eq] at hab
  rw [slotCmp_le_iff] at hab
  refine ⟨?_, ?_, ?_⟩
  · rcases hab with h | ⟨h, _⟩
    · exact le_of_lt h
    · exact le_of_eq h.symm
  · intro hpe ha
    rcases hab with h | ⟨_, h | ⟨hr, _⟩⟩
    · omega
    · simp only [ha, if_pos] at h
      by_cases hb : b.id = -1
      · exact hb
      · rw [if_neg hb] at h
        omega
    · by_cases hb : b.id = -1
      · exact hb
      · rw [if_pos ha, if_neg hb] at hr
        omega
  · intro hpe ha hb
    rcases hab with h | ⟨_, h | ⟨_, h⟩⟩
    · omega
    · rw [if_neg ha, if_neg hb] at h
      omega
    · rwa [if_neg ha, if_neg hb] at h


/-! Claim C1: length bookkeeping of the shop builder. -/

theorem makeHoles_length (o : Oracle) (tier region : String) :
    ∀ (n k : Nat), (makeHoles o tier region n k).1.length = n := by
  intro n
  induction n with
  | zero => intro k; rfl
  | succ m ih =>
    intro k
    simp only [makeHoles, List.length_cons, ih]

theorem sample_length_le (o : Oracle) (pool : List α) (count : Nat)
    (eq : α → α → Bool) (exclude : List α) (k : Nat) :
    (sampleWithoutReplacement o pool count eq exclude k).1.length ≤ count := by
  have := swrScan_length_le eq count exclude (fisherYates o pool k).1 []
  simpa [sampleWithoutReplacement] using this

theorem additionalFallbackStep_sum (o : Oracle) (regionPool : List Pokemon)
    (config : AppConfig) (purchasedIds : List Int) (shopResult : List Pokemon)
    (st : TierSel) (fallbackTier : String) :
    (additionalFallbackStep o regionPool config purchasedIds shopResult st fallbackTier).selected.length +
      (additionalFallbackStep o regionPool config purchasedIds shopResult st fallbackTier).remainingNeeded =
      st.selected.length + st.remainingNeeded := by
  unfold additionalFallbackStep
  by_cases h0 : st.remainingNeeded = 0 ∨ st.usedTiers.contains fallbackTier
  · rw [if_pos h0]
  · rw [if_neg h0]
    simp only
    set valid := (markDupes
      (((shopResult.map (fun p => p.id)) ++ (st.selected.map (fun p => p.id))).filter
        (fun i => i != -1))
      (getCandidatePoolForTier regionPool config purchasedIds fallbackTier) []).filter
      (fun p => p.id != -1) with hvalid
    by_cases hcnt : 0 < min st.remainingNeeded valid.length
    · rw [if_pos hcnt]
      simp only [List.length_append]
      have hle : (sampleWithoutReplacement o valid (min st.remainingNeeded valid.length)
          pokemonEquals (shopResult ++ st.selected) st.k).1.length ≤
          min st.remainingNeeded valid.length := sample_length_le _ _ _ _ _ _
      have : min st.remainingNeeded valid.length ≤ st.remainingNeeded := Nat.min_le_left _ _
      omega
    · rw [if_neg hcnt]

theorem foldl_additionalFallbackStep_sum (o : Oracle) (regionPool : List Pokemon)
    (config : AppConfig) (purchasedIds : List Int) (shopResult : List Pokemon) :
    ∀ (ts : List String) (st : TierSel),
      ((ts.foldl (additionalFallbackStep o regionPool config purchasedIds shopResult) st).selected.length +
        (ts.foldl (additionalFallbackStep o regionPool config purchasedIds shopResult) st).remainingNeeded) =
      st.selected.length + st.remainingNeeded := by
  intro ts
  induction ts with
  | nil => intro st; rfl
  | cons t rest ih =>
    intro st
    simp only [List.foldl_cons]
    rw [ih (additionalFallbackStep o regionPool config purchasedIds shopResult st t)]
    exact additionalFallbackStep_sum o regionPool config purchasedIds shopResult st t

theorem processTier_length (o : Oracle) (regionPool : List Pokemon) (region : String)
    (config : AppConfig) (purchasedIds : List Int) (weights : List (String × ℚ))
    (tierCounts : List (String × Nat)) (acc : List Pokemon × Nat) (currentTier : String) :
    (processTier o regionPool region config purchasedIds weights tierCounts acc currentTier).1.length =
      acc.1.length + (getKey tierCounts currentTier).getD 0 := by
  unfold processTier
  by_cases hreq : (getKey tierCounts currentTier).getD 0 = 0
  · rw [if_pos hreq, hreq]
    omega
  · rw [if_neg hreq]
    simp only [List.length_append]
    set requiredCount := (getKey tierCounts currentTier).getD 0 with hrc
    set tierPool1 := if config.tierFallback ∧
        (getCandidatePoolForTier regionPool config purchasedIds currentTier).length = 0 then
        emptyFallbackSearch regionPool config purchasedIds
          (findFallbackTiers currentTier weights)
      else getCandidatePoolForTier regionPool config purchasedIds currentTier with hpool1
    set dupRes : List Pokemon × Nat :=
      (if config.allowDuplicates then
        growPool o requiredCount requiredCount tierPool1 acc.2
      else
        let marked := markDupes (acc.1.map (fun p => p.id)) tierPool1 []
        let validPokemon := marked.filter (fun p => p.id != -1)
        if config.tierFallback ∧ validPokemon.length = 0 then
          match dupFallbackSearch regionPool config purchasedIds acc.1
            (findFallbackTiers currentTier weights) with
          | some pool => (pool, acc.2)
          | none => (marked, acc.2)
        else (marked, acc.2)) with hdup
    set tierPool3 := (assignUids o dupRes.1 dupRes.2).1 with hpool3
    set realPokemon := tierPool3.filter (fun p => p.id != -1) with hreal
    set afterReal : List Pokemon × Nat × Nat :=
      (if 0 < min requiredCount realPokemon.length then
        let picked := sampleWithoutReplacement o realPokemon
          (min requiredCount realPokemon.length) pokemonEquals acc.1 (assignUids o dupRes.1 dupRes.2).2
        (picked.1, requiredCount - picked.1.length, picked.2)
      else ([], requiredCount, (assignUids o dupRes.1 dupRes.2).2)) with hafter
    have hsum0 : afterReal.1.length + afterReal.2.1 = requiredCount := by
      rw [hafter]
      by_cases hrc0 : 0 < min requiredCount realPokemon.length
      · rw [if_pos hrc0]
        simp only
        have h1 : (sampleWithoutReplacement o realPokemon
            (min requiredCount realPokemon.length) pokemonEquals acc.1
            (assignUids o dupRes.1 dupRes.2).2).1.length ≤
            min requiredCount realPokemon.length := sample_length_le _ _ _ _ _ _
        have h2 : min requiredCount realPokemon.length ≤ requiredCount := Nat.min_le_left _ _
        omega
      · rw [if_neg hrc0]
        simp
    set stFinal : TierSel :=
      (if config.tierFallback ∧ 0 < afterReal.2.1 then
        (findFallbackTiers currentTier weights).foldl
          (additionalFallbackStep o regionPool config purchasedIds acc.1)
          { selected := afterReal.1, remainingNeeded := afterReal.2.1,
            usedTiers := if tierPool3.any (fun p => p.id != -1 &&
                jsToUpper p.tier != jsToUpper currentTier) then
                match tierPool3.find? (fun p => p.id != -1) with
                | some p => if jsToUpper p.tier == "" then [] else [jsToUpper p.tier]
                | none => []
              else [],
            k := afterReal.2.2 }
      else
        { selected := afterReal.1, remainingNeeded := afterReal.2.1,
          usedTiers := [], k := afterReal.2.2 }) with hfin
    have hsum : stFinal.selected.length + stFinal.remainingNeeded = requiredCount := by
      rw [hfin]
      by_cases hfb : config.tierFallback ∧ 0 < afterReal.2.1
      · rw [if_pos hfb]
        rw [foldl_additionalFallbackStep_sum]
        exact hsum0
      · rw [if_neg hfb]
        exact hsum0
    rw [makeHoles_length]
    omega


theorem sum_getD_over_keys [BEq κ] [LawfulBEq κ] (m : List (κ × Nat))
    (h : (keysOf m).Nodup) :
    ((keysOf m).map (fun t => (getKey m t).getD 0)).sum = sumValues m := by
  induction m with
  | nil => rfl
  | cons kv rest ih =>
    obtain ⟨k₀, v₀⟩ := kv
    simp only [keysOf, List.map_cons, List.nodup_cons] at h
    simp only [keysOf, List.map_cons, List.sum_cons, getKey_cons_eq rfl, Option.getD_some]
    have hcongr : (List.map (fun kv => kv.1) rest).map
        (fun t => (getKey ((k₀, v₀) :: rest) t).getD 0) =
        (List.map (fun kv => kv.1) rest).map (fun t => (getKey rest t).getD 0) := by
      refine List.map_congr_left ?_
      intro t ht
      have hne : k₀ ≠ t := fun he => h.1 (he ▸ ht)
      rw [getKey_cons_ne hne]
    rw [hcongr]
    have := ih h.2
    simp only [keysOf] at this
    rw [this]
    simp [sumValues]

theorem foldl_processTier_length (o : Oracle) (regionPool : List Pokemon) (region : String)
    (config : AppConfig) (purchasedIds : List Int) (weights : List (String × ℚ))
    (tierCounts : List (String × Nat)) :
    ∀ (ts : List String) (acc : List Pokemon × Nat),
      (ts.foldl (processTier o regionPool region config purchasedIds weights tierCounts) acc).1.length =
        acc.1.length + (ts.map (fun t => (getKey tierCounts t).getD 0)).sum := by
  intro ts
  induction ts with
  | nil => intro acc; simp
  | cons t rest ih =>
    intro acc
    simp only [List.foldl_cons, List.map_cons, List.sum_cons]
    rw [ih (processTier o regionPool region config purchasedIds weights tierCounts acc t)]
    rw [processTier_length]
    omega

/-- C1: for every oracle, catalog, region, purchase set and configuration
whose normalized per-tier minimum quotas sum to at most `shopSize`,
`buildShopForRegion` returns a list of exactly `shopSize` slots (real
items plus placeholders). -/
theorem buildShop_length_eq_shopSize (o : Oracle) (allPokemon : List Pokemon)
    (region : String) (config : AppConfig) (purchasedIds : List Int) (k : Nat)
    (h : sumValues (normalizeMinQuota config.quota) ≤ config.shopSize) :
    (buildShopForRegion o allPokemon region config purchasedIds k).1.length =
      config.shopSize := by
  unfold buildShopForRegion
  rw [List.length_mergeSort]
  rw [foldl_processTier_length]
  simp only [List.length_nil, Nat.zero_add]
  have hnodup := computeTierCounts_keys_nodup o config.shopSize
    (normalizeMinQuota config.quota) (normalizeWeights config.tierWeights) k
    (normalizeMinQuota_keys_nodup config.quota)
  have hperm : sortTiersDesc (keysOf (computeTierCounts o config.shopSize
      (normalizeMinQuota config.quota) (normalizeWeights config.tierWeights) k).1) ~
      keysOf (computeTierCounts o config.shopSize (normalizeMinQuota config.quota)
        (normalizeWeights config.tierWeights) k).1 :=
    List.mergeSort_perm _ _
  rw [(hperm.map (fun t => (getKey (computeTierCounts o config.shopSize
    (normalizeMinQuota config.quota) (normalizeWeights config.tierWeights) k).1 t).getD 0)).sum_eq]
  rw [sum_getD_over_keys _ hnodup]
  rw [computeTierCounts_sum o config.shopSize (normalizeMinQuota config.quota)
    (normalizeWeights config.tierWeights) k (normalizeMinQuota_keys_nodup config.quota)]
  omega

/-- C1, witness at a concrete configuration (minimums sum to 1, shop size 2). -/
theorem buildShop_length_eq_shopSize_witness :
    sumValues (normalizeMinQuota cfgW.quota) ≤ cfgW.shopSize ∧
    (buildShopForRegion oW catW "Kanto" cfgW [] 0).1.length = cfgW.shopSize :=
  ⟨by decide, buildShop_length_eq_shopSize oW catW "Kanto" cfgW [] 0 (by decide)⟩


/-! Claim C4: distinctness of real slot identifiers. -/

theorem pokemonEquals_false_ne (e x : Pokemon) (h : pokemonEquals e x = false) :
    realDistinct e x := by
  intro he hx heq
  unfold pokemonEquals at h
  rw [if_neg (fun hc => he hc.1)] at h
  rw [heq] at h
  simp at h

theorem realDistinct_symm (a b : Pokemon) (h : realDistinct a b) : realDistinct b a :=
  fun hb ha hne => h ha hb hne.symm

theorem realDistinct_of_hole_right (a b : Pokemon) (h : b.id = -1) : realDistinct a b :=
  fun _ hb => absurd h hb

theorem sample_realDistinct_pack (o : Oracle) (pool : List Pokemon) (count : Nat)
    (exclude : List Pokemon) (k : Nat) (hpool : ∀ x ∈ pool, x.id ≠ -1) :
    (sampleWithoutReplacement o pool count pokemonEquals exclude k).1.Pairwise realDistinct ∧
    (∀ a ∈ exclude, ∀ b ∈ (sampleWithoutReplacement o pool count pokemonEquals exclude k).1,
      realDistinct a b) ∧
    (∀ x ∈ (sampleWithoutReplacement o pool count pokemonEquals exclude k).1, x.id ≠ -1) := by
  refine ⟨?_, ?_, ?_⟩
  · have := swrScan_pairwise pokemonEquals count exclude (fisherYates o pool k).1 []
      List.Pairwise.nil
    exact this.imp (fun hab => pokemonEquals_false_ne _ _ hab)
  · intro a ha b hb
    rcases swrScan_not_excluded pokemonEquals count exclude (fisherYates o pool k).1 [] b hb with
      h | h
    · exact absurd h (List.not_mem_nil b)
    · exact pokemonEquals_false_ne a b (h a ha)
  · intro x hx
    rcases swrScan_mem pokemonEquals count exclude (fisherYates o pool k).1 [] x hx with h | h
    · exact absurd h (List.not_mem_nil x)
    · exact hpool x ((fisherYates_perm o pool k).mem_iff.mp h)

theorem makeHoles_all_holes (o : Oracle) (tier region : String) :
    ∀ (n k : Nat), ∀ x ∈ (makeHoles o tier region n k).1, x.id = -1 := by
  intro n
  induction n with
  | zero => intro k x hx; exact absurd hx (List.not_mem_nil x)
  | succ m ih =>
    intro k x hx
    rcases List.mem_cons.mp hx with h | h
    · rw [h]
    · exact ih (k + 1) x h

theorem pairwise_of_all_holes (holes : List Pokemon) (hh : ∀ x ∈ holes, x.id = -1) :
    holes.Pairwise realDistinct := by
  induction holes with
  | nil => exact List.Pairwise.nil
  | cons x tl ih =>
    refine List.Pairwise.cons ?_ (ih (fun y hy => hh y (List.mem_cons_of_mem x hy)))
    intro b hb
    exact realDistinct_of_hole_right x b (hh b (List.mem_cons_of_mem x hb))

theorem pairwise_append_holes (l holes : List Pokemon) (h : l.Pairwise realDistinct)
    (hh : ∀ x ∈ holes, x.id = -1) : (l ++ holes).Pairwise realDistinct := by
  rw [List.pairwise_append]
  exact ⟨h, pairwise_of_all_holes holes hh,
    fun a _ b hb => realDistinct_of_hole_right a b (hh b hb)⟩


theorem additionalFallbackStep_pairwise (o : Oracle) (regionPool : List Pokemon)
    (config : AppConfig) (purchasedIds : List Int) (shopResult : List Pokemon)
    (st : TierSel) (fallbackTier : String)
    (h : (shopResult ++ st.selected).Pairwise realDistinct) :
    (shopResult ++ (additionalFallbackStep o regionPool config purchasedIds shopResult
      st fallbackTier).selected).Pairwise realDistinct := by
  unfold additionalFallbackStep
  by_cases h0 : st.remainingNeeded = 0 ∨ st.usedTiers.contains fallbackTier
  · rw [if_pos h0]
    exact h
  · rw [if_neg h0]
    simp only
    set valid := (markDupes
      (((shopResult.map (fun p => p.id)) ++ (st.selected.map (fun p => p.id))).filter
        (fun i => i != -1))
      (getCandidatePoolForTier regionPool config purchasedIds fallbackTier) []).filter
      (fun p => p.id != -1) with hvalid
    by_cases hcnt : 0 < min st.remainingNeeded valid.length
    · rw [if_pos hcnt]
      simp only
      have hvalidreal : ∀ x ∈ valid, x.id ≠ -1 := by
        intro x hx
        have := (List.mem_filter.mp hx).2
        simpa using this
      have hp := sample_realDistinct_pack o valid (min st.remainingNeeded valid.length)
        (shopResult ++ st.selected) st.k hvalidreal
      rw [← List.append_assoc, List.pairwise_append]
      exact ⟨h, hp.1, hp.2.1⟩
    · rw [if_neg hcnt]
      exact h

theorem foldl_additionalFallbackStep_pairwise (o : Oracle) (regionPool : List Pokemon)
    (config : AppConfig) (purchasedIds : List Int) (shopResult : List Pokemon) :
    ∀ (ts : List String) (st : TierSel),
      (shopResult ++ st.selected).Pairwise realDistinct →
      (shopResult ++ (ts.foldl (additionalFallbackStep o regionPool config purchasedIds
        shopResult) st).selected).Pairwise realDistinct := by
  intro ts
  induction ts with
  | nil => intro st h; exact h
  | cons t rest ih =>
    intro st h
    simp only [List.foldl_cons]
    exact ih _ (additionalFallbackStep_pairwise o regionPool config purchasedIds
      shopResult st t h)

theorem processTier_pairwise (o : Oracle) (regionPool : List Pokemon) (region : String)
    (config : AppConfig) (purchasedIds : List Int) (weights : List (String × ℚ))
    (tierCounts : List (String × Nat)) (acc : List Pokemon × Nat) (currentTier : String)
    (h : acc.1.Pairwise realDistinct) :
    (processTier o regionPool region config purchasedIds weights tierCounts acc
      currentTier).1.Pairwise realDistinct := by
  unfold processTier
  by_cases hreq : (getKey tierCounts currentTier).getD 0 = 0
  · rw [if_pos hreq]
    exact h
  · rw [if_neg hreq]
    simp only
    set requiredCount := (getKey tierCounts currentTier).getD 0 with hrc
    set tierPool1 := if config.tierFallback ∧
        (getCandidatePoolForTier regionPool config purchasedIds currentTier).length = 0 then
        emptyFallbackSearch regionPool config purchasedIds
          (findFallbackTiers currentTier weights)
      else getCandidatePoolForTier regionPool config purchasedIds currentTier with hpool1
    set dupRes : List Pokemon × Nat :=
      (if config.allowDuplicates then
        growPool o requiredCount requiredCount tierPool1 acc.2
      else
        let marked := markDupes (acc.1.map (fun p => p.id)) tierPool1 []
        let validPokemon := marked.filter (fun p => p.id != -1)
        if config.tierFallback ∧ validPokemon.length = 0 then
          match dupFallbackSearch regionPool config purchasedIds acc.1
            (findFallbackTiers currentTier weights) with
          | some pool => (pool, acc.2)
          | none => (marked, acc.2)
        else (marked, acc.2)) with hdup
    set tierPool3 := (assignUids o dupRes.1 dupRes.2).1 with hpool3
    set realPokemon := tierPool3.filter (fun p => p.id != -1) with hreal
    set afterReal : List Pokemon × Nat × Nat :=
      (if 0 < min requiredCount realPokemon.length then
        let picked := sampleWithoutReplacement o realPokemon
          (min requiredCount realPokemon.length) pokemonEquals acc.1 (assignUids o dupRes.1 dupRes.2).2
        (picked.1, requiredCount - picked.1.length, picked.2)
      else ([], requiredCount, (assignUids o dupRes.1 dupRes.2).2)) with hafter
    have hAfter : (acc.1 ++ afterReal.1).Pairwise realDistinct := by
      rw [hafter]
      by_cases hrc0 : 0 < min requiredCount realPokemon.length
      · rw [if_pos hrc0]
        simp only
        have hrealreal : ∀ x ∈ realPokemon, x.id ≠ -1 := by
          intro x hx
          have := (List.mem_filter.mp hx).2
          simpa using this
        have hp := sample_realDistinct_pack o realPokemon
          (min requiredCount realPokemon.length) acc.1
          (assignUids o dupRes.1 dupRes.2).2 hrealreal
        rw [List.pairwise_append]
        exact ⟨h, hp.1, hp.2.1⟩
      · rw [if_neg hrc0]
        simpa using h
    set stFinal : TierSel :=
      (if config.tierFallback ∧ 0 < afterReal.2.1 then
        (findFallbackTiers currentTier weights).foldl
          (additionalFallbackStep o regionPool config purchasedIds acc.1)
          { selected := afterReal.1, remainingNeeded := afterReal.2.1,
            usedTiers := if tierPool3.any (fun p => p.id != -1 &&
                jsToUpper p.tier != jsToUpper currentTier) then
                match tierPool3.find? (fun p => p.id != -1) with
                | some p => if jsToUpper p.tier == "" then [] else [jsToUpper p.tier]
                | none => []
              else [],
            k := afterReal.2.2 }
      else
        { selected := afterReal.1, remainingNeeded := afterReal.2.1,
          usedTiers := [], k := afterReal.2.2 }) with hfin
    have hFin : (acc.1 ++ stFinal.selected).Pairwise realDistinct := by
      rw [hfin]
      by_cases hfb : config.tierFallback ∧ 0 < afterReal.2.1
      · rw [if_pos hfb]
        exact foldl_additionalFallbackStep_pairwise o regionPool config purchasedIds acc.1
          (findFallbackTiers currentTier weights) _ hAfter
      · rw [if_neg hfb]
        exact hAfter
    exact pairwise_append_holes _ _ hFin
      (makeHoles_all_holes o currentTier region stFinal.remainingNeeded stFinal.k)

theorem foldl_processTier_pairwise (o : Oracle) (regionPool : List Pokemon) (region : String)
    (config : AppConfig) (purchasedIds : List Int) (weights : List (String × ℚ))
    (tierCounts : List (String × Nat)) :
    ∀ (ts : List String) (acc : List Pokemon × Nat), acc.1.Pairwise realDistinct →
      (ts.foldl (processTier o regionPool region config purchasedIds weights tierCounts)
        acc).1.Pairwise realDistinct := by
  intro ts
  induction ts with
  | nil => intro acc h; exact h
  | cons t rest ih =>
    intro acc h
    simp only [List.foldl_cons]
    exact ih _ (processTier_pairwise o regionPool region config purchasedIds weights
      tierCounts acc t h)

/-- C4: for every oracle, catalog, region, purchase set and configuration
with duplicates disallowed, any two distinct real slots (id ≠ -1) of the
list returned by `buildShopForRegion` have different identifiers. -/
theorem buildShop_real_ids_distinct (o : Oracle) (allPokemon : List Pokemon)
    (region : String) (config : AppConfig) (purchasedIds : List Int) (k : Nat)
    (hdup : config.allowDuplicates = false) :
    (buildShopForRegion o allPokemon region config purchasedIds k).1.Pairwise realDistinct := by
  unfold buildShopForRegion
  have hbuilt := foldl_processTier_pairwise o
    (allPokemon.filter (fun p => byRegion p region)) region config purchasedIds
    (normalizeWeights config.tierWeights)
    (computeTierCounts o config.shopSize (normalizeMinQuota config.quota)
      (normalizeWeights config.tierWeights) k).1
    (sortTiersDesc (keysOf (computeTierCounts o config.shopSize
      (normalizeMinQuota config.quota) (normalizeWeights config.tierWeights) k).1))
    ([], (computeTierCounts o config.shopSize (normalizeMinQuota config.quota)
      (normalizeWeights config.tierWeights) k).2)
    List.Pairwise.nil
  exact ((List.mergeSort_perm _ _).pairwise_iff
    (fun hab => realDistinct_symm _ _ hab)).mpr hbuilt

/-- C4, witness at a concrete configuration without duplicates. -/
theorem buildShop_real_ids_distinct_witness :
    cfgW.allowDuplicates = false ∧
    (buildShopForRegion oW catW "Kanto" cfgW [] 0).1.Pairwise realDistinct :=
  ⟨by decide, buildShop_real_ids_distinct oW catW "Kanto" cfgW [] 0 (by decide)⟩

end PokeShop
